import Mathlib

/-
Verification of the Face-Photo-Search ingestion pipeline and incremental
clustering engine.

The development shallowly embeds the core of the repository:
  app/face_engine.py : the Similarity Clusterer (greedy first-fit clustering
    over embedding vectors, one metric per model type), and
  app/tasks.py       : the batch worker (per-photo persist step, full
    reclustering, status reporting) over a pure model of the sqlite store
    (app/database.py).

Embeddings are modelled as lists of real numbers (numpy float vectors become
exact real vectors); fresh uuid group ids become an abstract injective supply
of opaque tokens, fed by a counter threaded through the run.
-/

noncomputable section

namespace FaceSearch

/-- Embedding vectors (numpy 1-d float arrays) as real vectors. -/
abbrev Emb := List ℝ

/-- Model-type tags, e.g. "insightface" / "face_recognition". -/
abbrev Model := String

/-- Store-assigned face identities (sqlite AUTOINCREMENT ids). -/
abbrev FaceId := ℕ

variable {G : Type}

/-- np.dot on equal-length 1-d arrays: sum of componentwise products. -/
def dot (a b : Emb) : ℝ := (List.zipWith (fun x y => x * y) a b).sum

/-- np.linalg.norm: the Euclidean norm of a vector. -/
def vnorm (v : Emb) : ℝ := Real.sqrt (dot v v)

/-- Componentwise difference, `emb - centroid`. -/
def vsub (a b : Emb) : Emb := List.zipWith (fun x y => x - y) a b

/-- The normalization step of `_cluster_cosine`:
`norm = np.linalg.norm(emb); if norm > 0: emb = emb / norm`. -/
def unitNormalize (e : Emb) : Emb :=
  if 0 < vnorm e then e.map (fun x => x / vnorm e) else e

/-- The incremental running-mean centroid update of both clusterers:
`new_centroid = (centroid * count + emb) / (count + 1)`. -/
def updCentroid (c : Emb) (n : ℕ) (e : Emb) : Emb :=
  (List.zipWith (fun x y => x + y) (c.map (fun x => x * (n : ℝ))) e).map
    (fun x => x / ((n : ℝ) + 1))

/-- The inner loop of `_cluster_cosine`: scan the open clusters in creation
order; on the first cluster whose centroid has `np.dot(emb, centroid) >=
threshold`, update its centroid and count and return its group id; return
`none` when no cluster matches. -/
def cosineScan (t : ℝ) (e : Emb) :
    List (G × Emb × ℕ) → Option (List (G × Emb × ℕ) × G)
  | [] => none
  | (gid, c, n) :: rest =>
    if dot e c ≥ t then some ((gid, updCentroid c n e, n + 1) :: rest, gid)
    else
      match cosineScan t e rest with
      | some (rest', g) => some ((gid, c, n) :: rest', g)
      | none => none

/-- The inner loop of `_cluster_euclidean`: scan the open clusters in creation
order; on the first cluster with `np.linalg.norm(emb - centroid) <= threshold`,
update its centroid and count and return its group id. -/
def euclideanScan (t : ℝ) (e : Emb) :
    List (G × Emb × ℕ) → Option (List (G × Emb × ℕ) × G)
  | [] => none
  | (gid, c, n) :: rest =>
    if vnorm (vsub e c) ≤ t then some ((gid, updCentroid c n e, n + 1) :: rest, gid)
    else
      match euclideanScan t e rest with
      | some (rest', g) => some ((gid, c, n) :: rest', g)
      | none => none

/-- The loop of `FaceEngine._cluster_cosine` over `(face_id, emb)` items,
carrying the open-cluster list and the fresh-group-id counter (`uuid.uuid4`
fresh tokens are modelled as `fresh k` for a counter `k`). Each embedding is
unit-normalized before comparison and storage. Returns the `(face_id,
group_id)` results in input order together with the final counter. -/
def clusterCosineAux (fresh : ℕ → G) (t : ℝ) :
    List (FaceId × Emb) → List (G × Emb × ℕ) → ℕ → List (FaceId × G) × ℕ
  | [], _, k => ([], k)
  | (fid, emb) :: rest, clusters, k =>
    let e := unitNormalize emb
    match cosineScan t e clusters with
    | some (clusters', gid) =>
      let out := clusterCosineAux fresh t rest clusters' k
      ((fid, gid) :: out.1, out.2)
    | none =>
      let gid := fresh k
      let out := clusterCosineAux fresh t rest (clusters ++ [(gid, e, 1)]) (k + 1)
      ((fid, gid) :: out.1, out.2)

/-- The loop of `FaceEngine._cluster_euclidean`: identical structure but raw
embeddings and the Euclidean-distance bar. -/
def clusterEuclideanAux (fresh : ℕ → G) (t : ℝ) :
    List (FaceId × Emb) → List (G × Emb × ℕ) → ℕ → List (FaceId × G) × ℕ
  | [], _, k => ([], k)
  | (fid, emb) :: rest, clusters, k =>
    match euclideanScan t emb clusters with
    | some (clusters', gid) =>
      let out := clusterEuclideanAux fresh t rest clusters' k
      ((fid, gid) :: out.1, out.2)
    | none =>
      let gid := fresh k
      let out := clusterEuclideanAux fresh t rest (clusters ++ [(gid, emb, 1)]) (k + 1)
      ((fid, gid) :: out.1, out.2)

/-- Model of `FaceEngine._cluster_cosine` started from no open clusters. -/
def clusterCosine (fresh : ℕ → G) (t : ℝ) (items : List (FaceId × Emb)) :
    List (FaceId × G) :=
  (clusterCosineAux fresh t items [] 0).1

/-- Model of `FaceEngine._cluster_euclidean` started from no open clusters. -/
def clusterEuclidean (fresh : ℕ → G) (t : ℝ) (items : List (FaceId × Emb)) :
    List (FaceId × G) :=
  (clusterEuclideanAux fresh t items [] 0).1

/-- One step of `by_model.setdefault(model, []).append((fid, emb))`: insert the
pair into the bucket of its model, keeping first-occurrence bucket order and
appending within a bucket. -/
def addToModel (acc : List (Model × List (FaceId × Emb))) (m : Model)
    (p : FaceId × Emb) : List (Model × List (FaceId × Emb)) :=
  match acc with
  | [] => [(m, [p])]
  | (m', l) :: rest =>
    if m' = m then (m', l ++ [p]) :: rest else (m', l) :: addToModel rest m p

/-- The `by_model` dict of `FaceEngine.cluster`: buckets in first-occurrence
order of model type, items in input order within each bucket. -/
def byModel (faces : List (FaceId × Emb × Model)) :
    List (Model × List (FaceId × Emb)) :=
  faces.foldl (fun acc f => addToModel acc f.2.2 (f.1, f.2.1)) []

/-- The per-bucket dispatch of `FaceEngine.cluster`: the Euclidean clusterer
with the face_recognition threshold for `"face_recognition"`, the cosine
clusterer with the insightface threshold otherwise. -/
def runModel (fresh : ℕ → G) (tIns tRec : ℝ) (m : Model)
    (items : List (FaceId × Emb)) (k : ℕ) : List (FaceId × G) × ℕ :=
  if m = "face_recognition" then clusterEuclideanAux fresh tRec items [] k
  else clusterCosineAux fresh tIns items [] k

/-- The `for model, items in by_model.items()` loop of `FaceEngine.cluster`,
extending the assignment list bucket by bucket; the fresh-token counter is
threaded through so group ids stay globally unique across buckets (uuid4). -/
def clusterGroups (fresh : ℕ → G) (tIns tRec : ℝ) :
    List (Model × List (FaceId × Emb)) → ℕ → List (FaceId × G) × ℕ
  | [], k => ([], k)
  | (m, items) :: rest, k =>
    let out := runModel fresh tIns tRec m items k
    let out2 := clusterGroups fresh tIns tRec rest out.2
    (out.1 ++ out2.1, out2.2)

/-- Model of `FaceEngine.cluster`: empty input returns no assignments; otherwise
partition by model type and cluster each bucket with its own metric and
threshold. -/
def cluster (fresh : ℕ → G) (tIns tRec : ℝ)
    (faces : List (FaceId × Emb × Model)) : List (FaceId × G) :=
  if faces.isEmpty then []
  else (clusterGroups fresh tIns tRec (byModel faces) 0).1

/-- Per-bucket view of the `FaceEngine.cluster` loop: the same run as
`clusterGroups`, but keeping each model type's block of assignments separate. -/
def clusterPieces (fresh : ℕ → G) (tIns tRec : ℝ) :
    List (Model × List (FaceId × Emb)) → ℕ → List (Model × List (FaceId × G))
  | [], _ => []
  | (m, items) :: rest, k =>
    let out := runModel fresh tIns tRec m items k
    (m, out.1) :: clusterPieces fresh tIns tRec rest out.2

/-- Two identities share a group in an assignment list. -/
def sameGroup (as' : List (FaceId × G)) (i j : FaceId) : Prop :=
  ∃ g, (i, g) ∈ as' ∧ (j, g) ∈ as'

/- ---------------------------------------------------------------------
The store (app/database.py) and the batch worker (app/tasks.py).
--------------------------------------------------------------------- -/

/-- A row of the `photos` table. -/
structure PhotoRow where
  photo_id : String
  file_path : String
  orig_name : String
  width : ℕ
  height : ℕ
  no_face : Bool
deriving DecidableEq

/-- A row of the `faces` table; `group_id` is NULL until a clustering pass
assigns it. -/
structure FaceRow (G : Type) where
  id : ℕ
  photo_id : String
  embedding : Emb
  bbox : String
  model_type : Model
  group_id : Option G

/-- The persistent store: photo rows, face rows, and the next AUTOINCREMENT
face id. -/
structure Store (G : Type) where
  photos : List PhotoRow
  faces : List (FaceRow G)
  nextFaceId : ℕ

/-- Model of `Database.add_photo`: INSERT OR REPLACE keyed on photo_id. -/
def addPhoto (st : Store G) (p : PhotoRow) : Store G :=
  if st.photos.any (fun q => q.photo_id = p.photo_id) then
    ⟨st.photos.map (fun q => if q.photo_id = p.photo_id then p else q),
      st.faces, st.nextFaceId⟩
  else ⟨st.photos ++ [p], st.faces, st.nextFaceId⟩

/-- Model of `Database.add_faces`: append rows `(embedding, bbox, model_type)` for one
photo, with fresh sequential ids and NULL group. -/
def addFaces (st : Store G) (pid : String) (rows : List (Emb × String × Model)) :
    Store G :=
  ⟨st.photos,
    st.faces ++ rows.enum.map
      (fun q => ⟨st.nextFaceId + q.1, pid, q.2.1, q.2.2.1, q.2.2.2, none⟩),
    st.nextFaceId + rows.length⟩

/-- Model of `Database.list_faces`: all face rows as
`(id, photo_id, embedding, bbox, model_type)`. -/
def listFaces (st : Store G) : List (ℕ × String × Emb × String × Model) :=
  st.faces.map (fun f => (f.id, f.photo_id, f.embedding, f.bbox, f.model_type))

/-- Model of `Database.clear_groups`: `UPDATE faces SET group_id = NULL`. -/
def clearGroups (st : Store G) : Store G :=
  ⟨st.photos,
    st.faces.map (fun f => ⟨f.id, f.photo_id, f.embedding, f.bbox, f.model_type, none⟩),
    st.nextFaceId⟩

/-- Model of `Database.update_group`: set `group_id` on the row with the given id. -/
def updateGroup (st : Store G) (fid : ℕ) (g : G) : Store G :=
  ⟨st.photos,
    st.faces.map (fun f =>
      if f.id = fid then ⟨f.id, f.photo_id, f.embedding, f.bbox, f.model_type, some g⟩
      else f),
    st.nextFaceId⟩

/-- Model of `Database.count_stats`: `(total_photos, photos_no_face)`. -/
def countStats (st : Store G) : ℕ × ℕ :=
  (st.photos.length, (st.photos.filter (fun p => p.no_face)).length)

/-- Model of `Database.faces_count`. -/
def facesCount (st : Store G) : ℕ := st.faces.length

/-- Model of `PhotoProcessor._cluster_all`: fetch all faces, parse
`(face_id, embedding, model_type)`, clear every group label, run the
Clusterer, and write each `(face_id, group_id)` assignment back. -/
def clusterAll (fresh : ℕ → G) (tIns tRec : ℝ) (st : Store G) : Store G :=
  let parsed := st.faces.map (fun f => (f.id, f.embedding, f.model_type))
  let st1 := clearGroups st
  let assignments := cluster fresh tIns tRec parsed
  assignments.foldl (fun s a => updateGroup s a.1 a.2) st1

/-- The `TaskStatus` dataclass with its field defaults. -/
structure TaskStatus where
  state : String := "idle"
  total : ℕ := 0
  processed : ℕ := 0
  current : String := ""
  faces_found : ℕ := 0
  photos_no_face : ℕ := 0
  error : Option String := none
deriving DecidableEq

/-- One status-record operation performed by the worker. `replaceStatus`
assigns a whole fresh record (`self.status = TaskStatus(...)`); the other
constructors are the field-by-field mutations of `self.status` appearing in
`_process_jobs` / `_process_single`. -/
inductive StatusOp where
  | replaceStatus : TaskStatus → StatusOp
  | setCurrent : String → StatusOp
  | incrProcessed : StatusOp
  | incrPhotosNoFace : StatusOp
  | setState : String → StatusOp
  | setPhotosNoFace : ℕ → StatusOp
  | setFacesFound : ℕ → StatusOp
deriving DecidableEq

/-- Effect of one status operation on the shared status record. -/
def applyOp (s : TaskStatus) : StatusOp → TaskStatus
  | StatusOp.replaceStatus s' => s'
  | StatusOp.setCurrent n =>
    ⟨s.state, s.total, s.processed, n, s.faces_found, s.photos_no_face, s.error⟩
  | StatusOp.incrProcessed =>
    ⟨s.state, s.total, s.processed + 1, s.current, s.faces_found, s.photos_no_face, s.error⟩
  | StatusOp.incrPhotosNoFace =>
    ⟨s.state, s.total, s.processed, s.current, s.faces_found, s.photos_no_face + 1, s.error⟩
  | StatusOp.setState t =>
    ⟨t, s.total, s.processed, s.current, s.faces_found, s.photos_no_face, s.error⟩
  | StatusOp.setPhotosNoFace n =>
    ⟨s.state, s.total, s.processed, s.current, s.faces_found, n, s.error⟩
  | StatusOp.setFacesFound n =>
    ⟨s.state, s.total, s.processed, s.current, n, s.photos_no_face, s.error⟩

/-- The status record reached from `s` after a sequence of operations. -/
def statusFrom (s : TaskStatus) (ops : List StatusOp) : TaskStatus :=
  ops.foldl applyOp s

/-- The record `_reset_status` installs: `TaskStatus(state="running",
total=total, processed=0)`, all other fields at their defaults. -/
def runningStatus (total : ℕ) : TaskStatus := ⟨"running", total, 0, "", 0, 0, none⟩

/-- The record installed on failure: `TaskStatus(state="error", error=msg)`,
all other fields at their defaults. -/
def errorStatus (e : String) : TaskStatus := ⟨"error", 0, 0, "", 0, 0, some e⟩

/-- A `PhotoJob`. -/
structure PhotoJob where
  photo_id : String
  file_path : String
  orig_name : String
deriving DecidableEq

/-- Python `a or b` on the optional engine error message: the message when it
is present and non-empty, the fallback otherwise. -/
def pyOr (a : Option String) (b : String) : String :=
  match a with
  | some s => if s = "" then b else s
  | none => b

/-- The Detector capability behind `_process_single`: opening and decoding the
image and running `detect_and_embed`, yielding the pixel dimensions and the
detected faces as `(embedding, bbox_json, model_type)` rows, or any I/O,
decode, or detection error. -/
abbrev Detect := PhotoJob → Except String (ℕ × ℕ × List (Emb × String × Model))

/-- A failure point inside `_cluster_all`: every sqlite call it makes can
raise — in `list_faces` or `clear_groups` before anything changed, or after
the labels were cleared with only the first n `update_group` writes applied
(a crash mid-pass). `noFault` is the successful pass. -/
inductive ClusterFault where
  | noFault : ClusterFault
  | beforeClear : String → ClusterFault
  | afterClear : ℕ → String → ClusterFault

/-- Fault injection for the store calls the worker makes: each field gives
the message the corresponding sqlite call raises with, or none when the call
succeeds. `add_photo`/`add_faces` can fail per job; `_cluster_all`,
`count_stats` and `faces_count` can fail after all jobs succeeded. -/
structure WorkerFaults where
  addPhotoErr : PhotoJob → Option String
  addFacesErr : PhotoJob → Option String
  clusterErr : ClusterFault
  countStatsErr : Option String
  facesCountErr : Option String

/-- The reliable store: no store call raises. -/
def noFaults : WorkerFaults :=
  ⟨fun _ => none, fun _ => none, ClusterFault.noFault, none, none⟩

/-- Model of `PhotoProcessor._cluster_all` under a store that can fail:
a raise before `clear_groups` completed leaves the store unchanged; a raise
during the write-back leaves the labels cleared with only the first n
`update_group` writes applied; otherwise the full pass `clusterAll` runs.
Returns the store as mutated and the error, if any. -/
def clusterAllF (fresh : ℕ → G) (tIns tRec : ℝ) (cf : ClusterFault) (st : Store G) :
    Store G × Option String :=
  match cf with
  | ClusterFault.noFault => (clusterAll fresh tIns tRec st, none)
  | ClusterFault.beforeClear e => (st, some e)
  | ClusterFault.afterClear n e =>
    let parsed := st.faces.map (fun f => (f.id, f.embedding, f.model_type))
    let st1 := clearGroups st
    let assignments := cluster fresh tIns tRec parsed
    (((assignments.take n).foldl (fun s a => updateGroup s a.1 a.2) st1), some e)

/-- Model of `PhotoProcessor._process_single` over a store whose calls can
raise: detect faces (any I/O, decode or detection error propagates with the
store untouched); then persist the photo row and its face rows when faces
were found, or the photo row with the no-face flag (and the no-face status
increment) when none were. A store call that raises propagates its error and
keeps the writes made before it — an `add_faces` failure after a successful
`add_photo` leaves the failing job's photo row persisted. Returns the store
as mutated by the successful calls, the status operations performed, and the
error if any. -/
def processSingle (detect : Detect) (faults : WorkerFaults) (job : PhotoJob)
    (st : Store G) : Store G × List StatusOp × Option String :=
  match detect job with
  | Except.error e => (st, [], some e)
  | Except.ok (w, h, dfaces) =>
    if dfaces.isEmpty then
      match faults.addPhotoErr job with
      | some e => (st, [], some e)
      | none =>
        (addPhoto st ⟨job.photo_id, job.file_path, job.orig_name, w, h, true⟩,
          [StatusOp.incrPhotosNoFace], none)
    else
      match faults.addPhotoErr job with
      | some e => (st, [], some e)
      | none =>
        match faults.addFacesErr job with
        | some e =>
          (addPhoto st ⟨job.photo_id, job.file_path, job.orig_name, w, h, false⟩,
            [], some e)
        | none =>
          (addFaces
            (addPhoto st ⟨job.photo_id, job.file_path, job.orig_name, w, h, false⟩)
            job.photo_id dfaces, [], none)

/-- The `for job in jobs` loop of `_process_jobs`: set the current-job name,
run the single-photo step, increment the processed count; stop at the first
failing job, keeping the store writes of the jobs — and of the failing job's
partial step — before the raise. Returns the resulting store, the
status-operation trace, and the failure message, if any. -/
def processJobsAux (detect : Detect) (faults : WorkerFaults) :
    List PhotoJob → Store G → Store G × List StatusOp × Option String
  | [], st => (st, [], none)
  | j :: rest, st =>
    let r1 := processSingle detect faults j st
    match r1.2.2 with
    | some e => (r1.1, StatusOp.setCurrent j.orig_name :: r1.2.1, some e)
    | none =>
      let r := processJobsAux detect faults rest r1.1
      (r.1, StatusOp.setCurrent j.orig_name ::
        (r1.2.1 ++ StatusOp.incrProcessed :: r.2.1), r.2.2)

/-- Model of `PhotoProcessor._process_jobs` for one dequeued batch:
short-circuit with an error status when the engine is unavailable; otherwise
install the running status and run the jobs; on the first failure install a
fresh error status. When all jobs succeed, recluster the whole store — which
itself can raise — then set the done state and refresh the two counters from
the store, either of which can also raise; any of these failures likewise
installs a fresh error status (caught by the same except). Returns the final
store and the status-operation trace. -/
def processJobs (detect : Detect) (faults : WorkerFaults) (avail : Bool)
    (errMsg : Option String) (fresh : ℕ → G) (tIns tRec : ℝ)
    (jobs : List PhotoJob) (st : Store G) : Store G × List StatusOp :=
  if avail then
    let r := processJobsAux detect faults jobs st
    match r.2.2 with
    | some e =>
      (r.1, StatusOp.replaceStatus (runningStatus jobs.length) ::
        (r.2.1 ++ [StatusOp.replaceStatus (errorStatus e)]))
    | none =>
      let c := clusterAllF fresh tIns tRec faults.clusterErr r.1
      match c.2 with
      | some e =>
        (c.1, StatusOp.replaceStatus (runningStatus jobs.length) ::
          (r.2.1 ++ [StatusOp.replaceStatus (errorStatus e)]))
      | none =>
        match faults.countStatsErr with
        | some e =>
          (c.1, StatusOp.replaceStatus (runningStatus jobs.length) ::
            (r.2.1 ++ [StatusOp.setState ("done"),
              StatusOp.replaceStatus (errorStatus e)]))
        | none =>
          match faults.facesCountErr with
          | some e =>
            (c.1, StatusOp.replaceStatus (runningStatus jobs.length) ::
              (r.2.1 ++ [StatusOp.setState ("done"),
                StatusOp.setPhotosNoFace (countStats c.1).2,
                StatusOp.replaceStatus (errorStatus e)]))
          | none =>
            (c.1, StatusOp.replaceStatus (runningStatus jobs.length) ::
              (r.2.1 ++ [StatusOp.setState ("done"),
                StatusOp.setPhotosNoFace (countStats c.1).2,
                StatusOp.setFacesFound (facesCount c.1)]))
  else
    (st, [StatusOp.replaceStatus (errorStatus (pyOr errMsg ("No face engine available")))])

/-- The `_worker` loop over successive dequeued batches (empty batches are
skipped by `if not jobs: continue`), tracking the store. -/
def processBatches (detect : Detect) (faults : WorkerFaults) (avail : Bool)
    (errMsg : Option String) (fresh : ℕ → G) (tIns tRec : ℝ) :
    List (List PhotoJob) → Store G → Store G
  | [], st => st
  | b :: rest, st =>
    if b.isEmpty then processBatches detect faults avail errMsg fresh tIns tRec rest st
    else
      processBatches detect faults avail errMsg fresh tIns tRec rest
        (processJobs detect faults avail errMsg fresh tIns tRec b st).1

/- ---------------------------------------------------------------------
Concrete sample inputs used by the closed evaluation theorems.
--------------------------------------------------------------------- -/

/-- One-dimensional sample embedding with a single 1 entry. -/
def e1 : Emb := [(1 : ℝ)]

/-- One-dimensional zero embedding. -/
def e0 : Emb := [(0 : ℝ)]

/-- A single open cluster holding `e1`. -/
def clu1 : List (ℕ × Emb × ℕ) := [((0 : ℕ), e1, 1)]

/-- A single open cluster holding `e0`. -/
def clu0 : List (ℕ × Emb × ℕ) := [((0 : ℕ), e0, 1)]

/-- A sample detector: fails on the photo id "bad" and otherwise reports a
4 by 3 image with no faces. -/
def detectW : Detect := fun j =>
  if j.photo_id = "bad" then Except.error ("boom") else Except.ok (4, 3, [])

/-- Sample jobs. -/
def job1 : PhotoJob := ⟨"p1", "/a", "a.jpg"⟩

/-- A job whose detection fails under `detectW`. -/
def jobBad : PhotoJob := ⟨"bad", "/b", "b.jpg"⟩

/-- A further job, never attempted in the failing runs. -/
def job2 : PhotoJob := ⟨"p2", "/c", "c.jpg"⟩

/-- The empty store. -/
def store0 : Store ℕ := ⟨[], [], 1⟩

/-- The store after `job1` lands under `detectW`: one no-face photo row. -/
def store1 : Store ℕ := ⟨[⟨"p1", "/a", "a.jpg", 4, 3, true⟩], [], 1⟩

/-- Two sample faces of different model types. -/
def facesW : List (FaceId × Emb × Model) :=
  [(1, e1, "insightface"), (2, e0, "face_recognition")]

/-- A store holding one photo with one stored face. -/
def store2 : Store ℕ :=
  ⟨[⟨"p1", "/a", "a.jpg", 4, 3, false⟩],
    [⟨1, "p1", e1, "[0,0,4,3]", "insightface", none⟩], 2⟩

/-- A sample detector that always reports a 4 by 3 image with one
insightface face. -/
def detectW2 : Detect := fun _ =>
  Except.ok (4, 3, [(e1, "[0,0,1,1]", "insightface")])

/-- Sample faults: `add_faces` raises on the photo id "bad", every other
store call succeeds. -/
def faultsW : WorkerFaults :=
  ⟨fun _ => none,
    fun j => if j.photo_id = "bad" then some ("db locked") else none,
    ClusterFault.noFault, none, none⟩

/-- Sample faults: the reclustering pass raises before anything changed. -/
def faultsC : WorkerFaults :=
  ⟨fun _ => none, fun _ => none, ClusterFault.beforeClear ("db locked"), none, none⟩

/-- The store after `job1` lands under `detectW2`: one photo row with one
face row. -/
def store3 : Store ℕ :=
  ⟨[⟨"p1", "/a", "a.jpg", 4, 3, false⟩],
    [⟨1, "p1", e1, "[0,0,1,1]", "insightface", none⟩], 2⟩

/-- `store3` after the failing job's partial step: its photo row was
persisted by `add_photo` before `add_faces` raised. -/
def store4 : Store ℕ :=
  ⟨[⟨"p1", "/a", "a.jpg", 4, 3, false⟩, ⟨"bad", "/b", "b.jpg", 4, 3, false⟩],
    [⟨1, "p1", e1, "[0,0,1,1]", "insightface", none⟩], 2⟩

/- ---------------------------------------------------------------------
Spec-side reference: greedy first-fit in creation order.
--------------------------------------------------------------------- -/

/-- Least index of an element satisfying the predicate: the position of the
first open cluster crossing the bar when scanning in creation order. -/
def firstIdx {α : Type} (p : α → Bool) : List α → Option ℕ
  | [] => none
  | a :: l => if p a then some 0 else (firstIdx p l).map (fun i => i + 1)

/-- First-fit reference clusterer, written from the spec's words: for each
face in input order, prepare the embedding (`prep` is unit normalization for
cosine-space and the identity for euclidean-space), take the FIRST open
cluster, in creation order, whose centroid crosses the bar (`bar e centroid`,
with equality a match), assign the face there and update that cluster's
running mean and count; if no cluster crosses the bar, open a new cluster
holding only this face, labelled with the next fresh token. -/
def firstFitSpec (fresh : ℕ → G) (bar : Emb → Emb → Bool) (prep : Emb → Emb) :
    List (FaceId × Emb) → List (G × Emb × ℕ) → ℕ → List (FaceId × G) × ℕ
  | [], _, k => ([], k)
  | (fid, emb) :: rest, clusters, k =>
    let e := prep emb
    match (firstIdx (fun c => bar e c.2.1) clusters).bind
        (fun i => (clusters[i]?).map (fun c => (i, c))) with
    | some (i, gid, c, n) =>
      let out := firstFitSpec fresh bar prep rest
        (clusters.set i (gid, updCentroid c n e, n + 1)) k
      ((fid, gid) :: out.1, out.2)
    | none =>
      let gid := fresh k
      let out := firstFitSpec fresh bar prep rest (clusters ++ [(gid, e, 1)]) (k + 1)
      ((fid, gid) :: out.1, out.2)

lemma firstIdx_lt {α : Type} (p : α → Bool) :
    ∀ (l : List α) (i : ℕ), firstIdx p l = some i → i < l.length := by
  intro l
  induction l with
  | nil => intro i h; simp [firstIdx] at h
  | cons a l ih =>
    intro i h
    simp only [firstIdx] at h
    by_cases hp : p a = true
    · rw [if_pos hp] at h
      injection h with h
      simp only [List.length_cons]
      omega
    · rw [if_neg hp] at h
      rcases Option.map_eq_some'.mp h with ⟨j, hj, hji⟩
      have := ih j hj
      simp only [List.length_cons]
      omega

lemma cosineScan_eq_firstIdx (t : ℝ) (e : Emb) :
    ∀ cl : List (G × Emb × ℕ),
      cosineScan t e cl =
        match firstIdx (fun c => decide (dot e c.2.1 ≥ t)) cl with
        | some i =>
          match cl[i]? with
          | some (gid, c, n) => some (cl.set i (gid, updCentroid c n e, n + 1), gid)
          | none => none
        | none => none := by
  intro cl
  induction cl with
  | nil => simp [cosineScan, firstIdx]
  | cons hd rest ih =>
    obtain ⟨gid, c, n⟩ := hd
    by_cases h : dot e c ≥ t
    · simp [cosineScan, firstIdx, h]
    · rw [show cosineScan t e ((gid, c, n) :: rest)
        = match cosineScan t e rest with
          | some (rest', g) => some ((gid, c, n) :: rest', g)
          | none => none from by simp [cosineScan, h]]
      rw [ih]
      simp only [firstIdx, decide_eq_true_eq, h, if_false]
      cases hfi : firstIdx (fun c => decide (dot e c.2.1 ≥ t)) rest with
      | none => simp
      | some i =>
        simp only [Option.map_some', List.getElem?_cons_succ]
        cases hv : rest[i]? with
        | none => simp
        | some v =>
          obtain ⟨g', c', n'⟩ := v
          simp [List.set_cons_succ]

lemma euclideanScan_eq_firstIdx (t : ℝ) (e : Emb) :
    ∀ cl : List (G × Emb × ℕ),
      euclideanScan t e cl =
        match firstIdx (fun c => decide (vnorm (vsub e c.2.1) ≤ t)) cl with
        | some i =>
          match cl[i]? with
          | some (gid, c, n) => some (cl.set i (gid, updCentroid c n e, n + 1), gid)
          | none => none
        | none => none := by
  intro cl
  induction cl with
  | nil => simp [euclideanScan, firstIdx]
  | cons hd rest ih =>
    obtain ⟨gid, c, n⟩ := hd
    by_cases h : vnorm (vsub e c) ≤ t
    · simp [euclideanScan, firstIdx, h]
    · rw [show euclideanScan t e ((gid, c, n) :: rest)
        = match euclideanScan t e rest with
          | some (rest', g) => some ((gid, c, n) :: rest', g)
          | none => none from by simp [euclideanScan, h]]
      rw [ih]
      simp only [firstIdx, decide_eq_true_eq, h, if_false]
      cases hfi : firstIdx (fun c => decide (vnorm (vsub e c.2.1) ≤ t)) rest with
      | none => simp
      | some i =>
        simp only [Option.map_some', List.getElem?_cons_succ]
        cases hv : rest[i]? with
        | none => simp
        | some v =>
          obtain ⟨g', c', n'⟩ := v
          simp [List.set_cons_succ]

lemma cosineScan_of_none {t : ℝ} {e : Emb} {cl : List (G × Emb × ℕ)}
    (h : firstIdx (fun c => decide (dot e c.2.1 ≥ t)) cl = none) :
    cosineScan t e cl = none := by
  rw [cosineScan_eq_firstIdx, h]

lemma cosineScan_of_some {t : ℝ} {e : Emb} {cl : List (G × Emb × ℕ)} {i : ℕ}
    {gid : G} {c : Emb} {n : ℕ}
    (hfi : firstIdx (fun c => decide (dot e c.2.1 ≥ t)) cl = some i)
    (hv : cl[i]? = some (gid, c, n)) :
    cosineScan t e cl = some (cl.set i (gid, updCentroid c n e, n + 1), gid) := by
  rw [cosineScan_eq_firstIdx, hfi]
  show (match cl[i]? with
    | some (gid, c, n) => some (cl.set i (gid, updCentroid c n e, n + 1), gid)
    | none => none) = _
  rw [hv]

lemma euclideanScan_of_none {t : ℝ} {e : Emb} {cl : List (G × Emb × ℕ)}
    (h : firstIdx (fun c => decide (vnorm (vsub e c.2.1) ≤ t)) cl = none) :
    euclideanScan t e cl = none := by
  rw [euclideanScan_eq_firstIdx, h]

lemma euclideanScan_of_some {t : ℝ} {e : Emb} {cl : List (G × Emb × ℕ)} {i : ℕ}
    {gid : G} {c : Emb} {n : ℕ}
    (hfi : firstIdx (fun c => decide (vnorm (vsub e c.2.1) ≤ t)) cl = some i)
    (hv : cl[i]? = some (gid, c, n)) :
    euclideanScan t e cl = some (cl.set i (gid, updCentroid c n e, n + 1), gid) := by
  rw [euclideanScan_eq_firstIdx, hfi]
  show (match cl[i]? with
    | some (gid, c, n) => some (cl.set i (gid, updCentroid c n e, n + 1), gid)
    | none => none) = _
  rw [hv]

lemma clusterCosineAux_cons_some {fresh : ℕ → G} {t : ℝ} {fid : FaceId} {emb : Emb}
    {rest : List (FaceId × Emb)} {cl cl' : List (G × Emb × ℕ)} {gid : G} {k : ℕ}
    (h : cosineScan t (unitNormalize emb) cl = some (cl', gid)) :
    clusterCosineAux fresh t ((fid, emb) :: rest) cl k
      = ((fid, gid) :: (clusterCosineAux fresh t rest cl' k).1,
          (clusterCosineAux fresh t rest cl' k).2) := by
  simp only [clusterCosineAux]
  rw [h]

lemma clusterCosineAux_cons_none {fresh : ℕ → G} {t : ℝ} {fid : FaceId} {emb : Emb}
    {rest : List (FaceId × Emb)} {cl : List (G × Emb × ℕ)} {k : ℕ}
    (h : cosineScan t (unitNormalize emb) cl = none) :
    clusterCosineAux fresh t ((fid, emb) :: rest) cl k
      = ((fid, fresh k) ::
            (clusterCosineAux fresh t rest (cl ++ [(fresh k, unitNormalize emb, 1)]) (k + 1)).1,
          (clusterCosineAux fresh t rest (cl ++ [(fresh k, unitNormalize emb, 1)]) (k + 1)).2) := by
  simp only [clusterCosineAux]
  rw [h]

lemma clusterEuclideanAux_cons_some {fresh : ℕ → G} {t : ℝ} {fid : FaceId} {emb : Emb}
    {rest : List (FaceId × Emb)} {cl cl' : List (G × Emb × ℕ)} {gid : G} {k : ℕ}
    (h : euclideanScan t emb cl = some (cl', gid)) :
    clusterEuclideanAux fresh t ((fid, emb) :: rest) cl k
      = ((fid, gid) :: (clusterEuclideanAux fresh t rest cl' k).1,
          (clusterEuclideanAux fresh t rest cl' k).2) := by
  simp only [clusterEuclideanAux]
  rw [h]

lemma clusterEuclideanAux_cons_none {fresh : ℕ → G} {t : ℝ} {fid : FaceId} {emb : Emb}
    {rest : List (FaceId × Emb)} {cl : List (G × Emb × ℕ)} {k : ℕ}
    (h : euclideanScan t emb cl = none) :
    clusterEuclideanAux fresh t ((fid, emb) :: rest) cl k
      = ((fid, fresh k) ::
            (clusterEuclideanAux fresh t rest (cl ++ [(fresh k, emb, 1)]) (k + 1)).1,
          (clusterEuclideanAux fresh t rest (cl ++ [(fresh k, emb, 1)]) (k + 1)).2) := by
  simp only [clusterEuclideanAux]
  rw [h]

lemma firstFitSpec_cons_some {fresh : ℕ → G} {bar : Emb → Emb → Bool} {prep : Emb → Emb}
    {fid : FaceId} {emb : Emb} {rest : List (FaceId × Emb)} {cl : List (G × Emb × ℕ)}
    {i : ℕ} {gid : G} {c : Emb} {n : ℕ} {k : ℕ}
    (hfi : firstIdx (fun cc => bar (prep emb) cc.2.1) cl = some i)
    (hv : cl[i]? = some (gid, c, n)) :
    firstFitSpec fresh bar prep ((fid, emb) :: rest) cl k
      = ((fid, gid) :: (firstFitSpec fresh bar prep rest
            (cl.set i (gid, updCentroid c n (prep emb), n + 1)) k).1,
          (firstFitSpec fresh bar prep rest
            (cl.set i (gid, updCentroid c n (prep emb), n + 1)) k).2) := by
  simp only [firstFitSpec, hfi, Option.some_bind, hv, Option.map_some']

lemma firstFitSpec_cons_none {fresh : ℕ → G} {bar : Emb → Emb → Bool} {prep : Emb → Emb}
    {fid : FaceId} {emb : Emb} {rest : List (FaceId × Emb)} {cl : List (G × Emb × ℕ)}
    {k : ℕ}
    (hfi : firstIdx (fun cc => bar (prep emb) cc.2.1) cl = none) :
    firstFitSpec fresh bar prep ((fid, emb) :: rest) cl k
      = ((fid, fresh k) ::
            (firstFitSpec fresh bar prep rest (cl ++ [(fresh k, prep emb, 1)]) (k + 1)).1,
          (firstFitSpec fresh bar prep rest (cl ++ [(fresh k, prep emb, 1)]) (k + 1)).2) := by
  simp only [firstFitSpec, hfi, Option.none_bind]

lemma clusterCosineAux_eq_spec (fresh : ℕ → G) (t : ℝ) :
    ∀ (items : List (FaceId × Emb)) (cl : List (G × Emb × ℕ)) (k : ℕ),
      clusterCosineAux fresh t items cl k
        = firstFitSpec fresh (fun e c => decide (dot e c ≥ t)) unitNormalize items cl k := by
  intro items
  induction items with
  | nil => intro cl k; simp [clusterCosineAux, firstFitSpec]
  | cons p rest ih =>
    intro cl k
    obtain ⟨fid, emb⟩ := p
    cases hfi : firstIdx (fun c => decide (dot (unitNormalize emb) c.2.1 ≥ t)) cl with
    | none =>
      rw [clusterCosineAux_cons_none (cosineScan_of_none hfi),
        firstFitSpec_cons_none hfi, ih]
    | some i =>
      have hlt := firstIdx_lt _ cl i hfi
      have hv : cl[i]? = some (cl[i].1, cl[i].2.1, cl[i].2.2) := by
        rw [List.getElem?_eq_getElem hlt]
      rw [clusterCosineAux_cons_some (cosineScan_of_some hfi hv),
        firstFitSpec_cons_some hfi hv, ih]

lemma clusterEuclideanAux_eq_spec (fresh : ℕ → G) (t : ℝ) :
    ∀ (items : List (FaceId × Emb)) (cl : List (G × Emb × ℕ)) (k : ℕ),
      clusterEuclideanAux fresh t items cl k
        = firstFitSpec fresh (fun e c => decide (vnorm (vsub e c) ≤ t)) (fun e => e) items cl k := by
  intro items
  induction items with
  | nil => intro cl k; simp [clusterEuclideanAux, firstFitSpec]
  | cons p rest ih =>
    intro cl k
    obtain ⟨fid, emb⟩ := p
    cases hfi : firstIdx (fun c => decide (vnorm (vsub emb c.2.1) ≤ t)) cl with
    | none =>
      rw [clusterEuclideanAux_cons_none (euclideanScan_of_none hfi),
        firstFitSpec_cons_none hfi, ih]
    | some i =>
      have hlt := firstIdx_lt _ cl i hfi
      have hv : cl[i]? = some (cl[i].1, cl[i].2.1, cl[i].2.2) := by
        rw [List.getElem?_eq_getElem hlt]
      rw [clusterEuclideanAux_cons_some (euclideanScan_of_some hfi hv),
        firstFitSpec_cons_some hfi hv, ih]

/-- C1: the Similarity Clusterer processes faces in input order and assigns
each face to the FIRST open cluster, scanned in the order clusters were
opened, that crosses the bar (cosine similarity at least the threshold for
cosine-space, Euclidean distance at most the threshold for euclidean-space),
not the best-matching cluster; if no open cluster crosses the bar, a new
cluster containing only this face is opened: both clusterers coincide with
the first-fit reference `firstFitSpec`, and a cluster whose bar value equals
the threshold exactly is a match in both metrics. -/
theorem clusterer_first_fit (fresh : ℕ → G) (t : ℝ) (items : List (FaceId × Emb))
    (cl : List (G × Emb × ℕ)) (k : ℕ) :
    (clusterCosineAux fresh t items cl k
        = firstFitSpec fresh (fun e c => decide (dot e c ≥ t)) unitNormalize items cl k)
    ∧ (clusterEuclideanAux fresh t items cl k
        = firstFitSpec fresh (fun e c => decide (vnorm (vsub e c) ≤ t)) (fun e => e) items cl k)
    ∧ (∀ (e : Emb) (gid : G) (c : Emb) (n : ℕ) (rest : List (G × Emb × ℕ)),
        dot e c = t →
          cosineScan t e ((gid, c, n) :: rest)
            = some ((gid, updCentroid c n e, n + 1) :: rest, gid))
    ∧ (∀ (e : Emb) (gid : G) (c : Emb) (n : ℕ) (rest : List (G × Emb × ℕ)),
        vnorm (vsub e c) = t →
          euclideanScan t e ((gid, c, n) :: rest)
            = some ((gid, updCentroid c n e, n + 1) :: rest, gid)) := by
  refine ⟨clusterCosineAux_eq_spec fresh t items cl k,
    clusterEuclideanAux_eq_spec fresh t items cl k, ?_, ?_⟩
  · intro e gid c n rest h
    simp only [cosineScan]
    rw [if_pos (ge_of_eq h)]
  · intro e gid c n rest h
    simp only [euclideanScan]
    rw [if_pos (le_of_eq h)]

/-- Witness for C1 at concrete one-dimensional inputs, exercising the
exact-threshold boundary in both metrics. -/
theorem clusterer_first_fit_witness :
    (dot [(1 : ℝ)] [(1 : ℝ)] = (1 : ℝ)
      ∧ cosineScan (1 : ℝ) [(1 : ℝ)] [((0 : ℕ), ([(1 : ℝ)] : Emb), 1)]
          = some ([((0 : ℕ), updCentroid [(1 : ℝ)] 1 [(1 : ℝ)], 2)], (0 : ℕ)))
    ∧ (vnorm (vsub [(0 : ℝ)] [(0 : ℝ)]) = (0 : ℝ)
      ∧ euclideanScan (0 : ℝ) [(0 : ℝ)] [((0 : ℕ), ([(0 : ℝ)] : Emb), 1)]
          = some ([((0 : ℕ), updCentroid [(0 : ℝ)] 1 [(0 : ℝ)], 2)], (0 : ℕ))) := by
  have hd : dot [(1 : ℝ)] [(1 : ℝ)] = (1 : ℝ) := by simp [dot]
  have hvv : vnorm (vsub [(0 : ℝ)] [(0 : ℝ)]) = (0 : ℝ) := by
    simp [vnorm, vsub, dot]
  exact ⟨⟨hd, (clusterer_first_fit (fun n => n) 1 [] [] 0).2.2.1 [(1 : ℝ)] 0 [(1 : ℝ)] 1 [] hd⟩,
    ⟨hvv, (clusterer_first_fit (fun n => n) 0 [] [] 0).2.2.2 [(0 : ℝ)] 0 [(0 : ℝ)] 1 [] hvv⟩⟩

lemma cosineScan_some_inv (t : ℝ) (e : Emb) :
    ∀ (cl cl' : List (G × Emb × ℕ)) (g : G),
      cosineScan t e cl = some (cl', g) →
      ∃ i c n, cl[i]? = some (g, c, n)
        ∧ cl' = cl.set i (g, updCentroid c n e, n + 1)
        ∧ ∀ j, j ≠ i → cl'[j]? = cl[j]? := by
  intro cl
  induction cl with
  | nil => intro cl' g h; simp [cosineScan] at h
  | cons hd rest ih =>
    obtain ⟨gid0, c0, n0⟩ := hd
    intro cl' g h
    by_cases hb : dot e c0 ≥ t
    · rw [show cosineScan t e ((gid0, c0, n0) :: rest)
          = some ((gid0, updCentroid c0 n0 e, n0 + 1) :: rest, gid0) from by
        simp [cosineScan, hb]] at h
      simp only [Option.some.injEq, Prod.mk.injEq] at h
      obtain ⟨hcl, hg⟩ := h
      subst hcl
      subst hg
      refine ⟨0, c0, n0, by simp, by simp, ?_⟩
      intro j hj
      cases j with
      | zero => exact absurd rfl hj
      | succ j' => simp [List.getElem?_cons_succ]
    · rw [show cosineScan t e ((gid0, c0, n0) :: rest)
          = match cosineScan t e rest with
            | some (rest', g') => some ((gid0, c0, n0) :: rest', g')
            | none => none from by simp [cosineScan, hb]] at h
      cases hs : cosineScan t e rest with
      | none => rw [hs] at h; simp at h
      | some v =>
        obtain ⟨rest', g'⟩ := v
        rw [hs] at h
        simp only [Option.some.injEq, Prod.mk.injEq] at h
        obtain ⟨hcl, hg⟩ := h
        subst hcl
        subst hg
        obtain ⟨i, c, n, hv, hset, hoth⟩ := ih rest' g' hs
        refine ⟨i + 1, c, n, ?_, ?_, ?_⟩
        · simpa using hv
        · rw [List.set_cons_succ, ← hset]
        · intro j hj
          cases j with
          | zero => simp
          | succ j' =>
            have hne : j' ≠ i := by omega
            simp only [List.getElem?_cons_succ]
            exact hoth j' hne

lemma euclideanScan_some_inv (t : ℝ) (e : Emb) :
    ∀ (cl cl' : List (G × Emb × ℕ)) (g : G),
      euclideanScan t e cl = some (cl', g) →
      ∃ i c n, cl[i]? = some (g, c, n)
        ∧ cl' = cl.set i (g, updCentroid c n e, n + 1)
        ∧ ∀ j, j ≠ i → cl'[j]? = cl[j]? := by
  intro cl
  induction cl with
  | nil => intro cl' g h; simp [euclideanScan] at h
  | cons hd rest ih =>
    obtain ⟨gid0, c0, n0⟩ := hd
    intro cl' g h
    by_cases hb : vnorm (vsub e c0) ≤ t
    · rw [show euclideanScan t e ((gid0, c0, n0) :: rest)
          = some ((gid0, updCentroid c0 n0 e, n0 + 1) :: rest, gid0) from by
        simp [euclideanScan, hb]] at h
      simp only [Option.some.injEq, Prod.mk.injEq] at h
      obtain ⟨hcl, hg⟩ := h
      subst hcl
      subst hg
      refine ⟨0, c0, n0, by simp, by simp, ?_⟩
      intro j hj
      cases j with
      | zero => exact absurd rfl hj
      | succ j' => simp [List.getElem?_cons_succ]
    · rw [show euclideanScan t e ((gid0, c0, n0) :: rest)
          = match euclideanScan t e rest with
            | some (rest', g') => some ((gid0, c0, n0) :: rest', g')
            | none => none from by simp [euclideanScan, hb]] at h
      cases hs : euclideanScan t e rest with
      | none => rw [hs] at h; simp at h
      | some v =>
        obtain ⟨rest', g'⟩ := v
        rw [hs] at h
        simp only [Option.some.injEq, Prod.mk.injEq] at h
        obtain ⟨hcl, hg⟩ := h
        subst hcl
        subst hg
        obtain ⟨i, c, n, hv, hset, hoth⟩ := ih rest' g' hs
        refine ⟨i + 1, c, n, ?_, ?_, ?_⟩
        · simpa using hv
        · rw [List.set_cons_succ, ← hset]
        · intro j hj
          cases j with
          | zero => simp
          | succ j' =>
            have hne : j' ≠ i := by omega
            simp only [List.getElem?_cons_succ]
            exact hoth j' hne

/-- C4: whenever the Clusterer assigns a face to an existing cluster whose
row holds centroid c and member count n, the updated cluster list replaces
exactly that row by `(label, updCentroid c n e, n + 1)` — centroid exactly
`(c * n + e) / (n + 1)` componentwise, count `n + 1` — where e is the compared
embedding (the unit-normalized embedding in cosine-space, the raw embedding
in euclidean-space), and the rows of all clusters the face is not assigned to
are unchanged. -/
theorem centroid_running_mean (t : ℝ) (emb : Emb) (cl cl' : List (G × Emb × ℕ)) (g : G) :
    (cosineScan t (unitNormalize emb) cl = some (cl', g) →
      ∃ i c n, cl[i]? = some (g, c, n)
        ∧ cl' = cl.set i (g, updCentroid c n (unitNormalize emb), n + 1)
        ∧ ∀ j, j ≠ i → cl'[j]? = cl[j]?)
    ∧ (euclideanScan t emb cl = some (cl', g) →
      ∃ i c n, cl[i]? = some (g, c, n)
        ∧ cl' = cl.set i (g, updCentroid c n emb, n + 1)
        ∧ ∀ j, j ≠ i → cl'[j]? = cl[j]?) :=
  ⟨cosineScan_some_inv t (unitNormalize emb) cl cl' g,
    euclideanScan_some_inv t emb cl cl' g⟩

/-- Witness for C4: one-dimensional concrete assignments in both metrics. -/
theorem centroid_running_mean_witness :
    (cosineScan ((1 : ℝ) / 2) (unitNormalize e1) clu1
        = some ([((0 : ℕ), updCentroid e1 1 (unitNormalize e1), 2)], (0 : ℕ))
      ∧ ∃ i c n, clu1[i]? = some ((0 : ℕ), c, n)
          ∧ [((0 : ℕ), updCentroid e1 1 (unitNormalize e1), 2)]
              = clu1.set i ((0 : ℕ), updCentroid c n (unitNormalize e1), n + 1)
          ∧ ∀ j, j ≠ i →
              ([((0 : ℕ), updCentroid e1 1 (unitNormalize e1), 2)] :
                List (ℕ × Emb × ℕ))[j]? = clu1[j]?)
    ∧ (euclideanScan ((1 : ℝ) / 2) e0 clu0
        = some ([((0 : ℕ), updCentroid e0 1 e0, 2)], (0 : ℕ))
      ∧ ∃ i c n, clu0[i]? = some ((0 : ℕ), c, n)
          ∧ [((0 : ℕ), updCentroid e0 1 e0, 2)]
              = clu0.set i ((0 : ℕ), updCentroid c n e0, n + 1)
          ∧ ∀ j, j ≠ i →
              ([((0 : ℕ), updCentroid e0 1 e0, 2)] :
                List (ℕ × Emb × ℕ))[j]? = clu0[j]?) := by
  have hu : unitNormalize e1 = e1 := by
    simp [unitNormalize, vnorm, dot, e1]
  have hscan : cosineScan ((1 : ℝ) / 2) (unitNormalize e1) clu1
      = some ([((0 : ℕ), updCentroid e1 1 (unitNormalize e1), 2)], (0 : ℕ)) := by
    rw [hu]
    show cosineScan ((1 : ℝ) / 2) e1 (((0 : ℕ), e1, 1) :: [])
      = some ([((0 : ℕ), updCentroid e1 1 e1, 2)], (0 : ℕ))
    simp only [cosineScan]
    rw [if_pos (by simp [dot, e1]; norm_num)]
  have hvd : vnorm (vsub e0 e0) = 0 := by simp [vnorm, vsub, dot, e0]
  have hescan : euclideanScan ((1 : ℝ) / 2) e0 clu0
      = some ([((0 : ℕ), updCentroid e0 1 e0, 2)], (0 : ℕ)) := by
    show euclideanScan ((1 : ℝ) / 2) e0 (((0 : ℕ), e0, 1) :: [])
      = some ([((0 : ℕ), updCentroid e0 1 e0, 2)], (0 : ℕ))
    simp only [euclideanScan]
    rw [if_pos (by rw [hvd]; norm_num)]
  exact ⟨⟨hscan, (centroid_running_mean ((1 : ℝ) / 2) e1 clu1 _ (0 : ℕ)).1 hscan⟩,
    ⟨hescan, (centroid_running_mean ((1 : ℝ) / 2) e0 clu0 _ (0 : ℕ)).2 hescan⟩⟩

lemma dot_self_nonneg (v : Emb) : 0 ≤ dot v v := by
  induction v with
  | nil => simp [dot]
  | cons x l ih =>
    have : dot (x :: l) (x :: l) = x * x + dot l l := by simp [dot]
    rw [this]
    exact add_nonneg (mul_self_nonneg x) ih

lemma dot_map_div (d : ℝ) : ∀ a b : Emb,
    dot (a.map (fun x => x / d)) (b.map (fun x => x / d)) = dot a b / (d * d) := by
  intro a
  induction a with
  | nil => intro b; simp [dot]
  | cons x l ih =>
    intro b
    cases b with
    | nil => simp [dot]
    | cons y m =>
      have h1 : dot ((x :: l).map (fun x => x / d)) ((y :: m).map (fun x => x / d))
          = x / d * (y / d) + dot (l.map (fun x => x / d)) (m.map (fun x => x / d)) := by
        simp [dot]
      have h2 : dot (x :: l) (y :: m) = x * y + dot l m := by simp [dot]
      rw [h1, h2, ih, div_mul_div_comm, add_div]

lemma vnorm_unit (e : Emb) (h : 0 < vnorm e) :
    vnorm (e.map (fun x => x / vnorm e)) = 1 := by
  unfold vnorm at h ⊢
  rw [dot_map_div, Real.sqrt_div (dot_self_nonneg e),
    Real.sqrt_mul_self (Real.sqrt_nonneg (dot e e))]
  exact div_self (ne_of_gt h)

lemma unitNormalize_map_div (e : Emb) (h : 0 < vnorm e) :
    unitNormalize (e.map (fun x => x / vnorm e)) = unitNormalize e := by
  have h1 := vnorm_unit e h
  simp only [unitNormalize, h1, zero_lt_one, if_true, if_pos h, div_one, List.map_id,
    List.map_id']

lemma clusterCosineAux_congr_mid (fresh : ℕ → G) (t : ℝ) (fid : FaceId) (a b : Emb)
    (h : unitNormalize a = unitNormalize b) :
    ∀ (pre post : List (FaceId × Emb)) (cl : List (G × Emb × ℕ)) (k : ℕ),
      clusterCosineAux fresh t (pre ++ (fid, a) :: post) cl k
        = clusterCosineAux fresh t (pre ++ (fid, b) :: post) cl k := by
  intro pre
  induction pre with
  | nil =>
    intro post cl k
    simp only [List.nil_append]
    cases hs : cosineScan t (unitNormalize a) cl with
    | some v =>
      obtain ⟨cl', g⟩ := v
      have hs' : cosineScan t (unitNormalize b) cl = some (cl', g) := by
        rw [← h]; exact hs
      rw [clusterCosineAux_cons_some hs, clusterCosineAux_cons_some hs']
    | none =>
      have hs' : cosineScan t (unitNormalize b) cl = none := by
        rw [← h]; exact hs
      rw [clusterCosineAux_cons_none hs, clusterCosineAux_cons_none hs', h]
  | cons p pre ih =>
    intro post cl k
    obtain ⟨fid0, emb0⟩ := p
    simp only [List.cons_append]
    cases hs : cosineScan t (unitNormalize emb0) cl with
    | some v =>
      obtain ⟨cl', g⟩ := v
      rw [clusterCosineAux_cons_some hs, clusterCosineAux_cons_some hs, ih]
    | none =>
      rw [clusterCosineAux_cons_none hs, clusterCosineAux_cons_none hs, ih]

/-- C8: for cosine-space clustering, replacing any embedding e of positive
norm by its unit normalization e/‖e‖ before it reaches the Clusterer changes
nothing: the cosine clusterer unit-normalizes each embedding first and
normalization is idempotent, so the outputs — and with them the partition of
identities into groups — are identical. -/
theorem cosine_normalize_idempotent (fresh : ℕ → G) (t : ℝ) (fid : FaceId) (e : Emb)
    (pre post : List (FaceId × Emb)) (cl : List (G × Emb × ℕ)) (k : ℕ)
    (h : 0 < vnorm e) :
    clusterCosineAux fresh t (pre ++ (fid, e.map (fun x => x / vnorm e)) :: post) cl k
      = clusterCosineAux fresh t (pre ++ (fid, e) :: post) cl k
    ∧ clusterCosine fresh t (pre ++ (fid, e.map (fun x => x / vnorm e)) :: post)
      = clusterCosine fresh t (pre ++ (fid, e) :: post) := by
  have hc := clusterCosineAux_congr_mid fresh t fid (e.map (fun x => x / vnorm e)) e
    (unitNormalize_map_div e h)
  exact ⟨hc pre post cl k, congrArg Prod.fst (hc pre post [] 0)⟩

/-- Witness for C8 at the concrete embedding `e1`. -/
theorem cosine_normalize_idempotent_witness :
    0 < vnorm e1
    ∧ clusterCosineAux (fun n => n) ((1 : ℝ) / 2)
        ([] ++ ((5 : FaceId), e1.map (fun x => x / vnorm e1)) :: []) [] 0
      = clusterCosineAux (fun n => n) ((1 : ℝ) / 2) ([] ++ ((5 : FaceId), e1) :: []) [] 0 := by
  have h : 0 < vnorm e1 := by
    simp [vnorm, dot, e1]
  exact ⟨h,
    (cosine_normalize_idempotent (fun n => n) ((1 : ℝ) / 2) 5 e1 [] [] [] 0 h).1⟩

lemma cosineScan_relabel (f : ℕ → G) (t : ℝ) (e : Emb) :
    ∀ cl : List (ℕ × Emb × ℕ),
      cosineScan t e (cl.map (fun c => (f c.1, c.2)))
        = (cosineScan t e cl).map
            (fun r => (r.1.map (fun c => (f c.1, c.2)), f r.2)) := by
  intro cl
  induction cl with
  | nil => simp [cosineScan]
  | cons hd rest ih =>
    obtain ⟨g0, c0, n0⟩ := hd
    by_cases hb : dot e c0 ≥ t
    · simp [cosineScan, hb]
    · cases hs : cosineScan t e rest with
      | none =>
        have h1 : cosineScan t e ((g0, c0, n0) :: rest) = none := by
          simp [cosineScan, hb, hs]
        have hs2 : cosineScan t e (rest.map (fun c => (f c.1, c.2))) = none := by
          rw [ih, hs]
          rfl
        have h2 : cosineScan t e ((f g0, c0, n0) :: rest.map (fun c => (f c.1, c.2)))
            = none := by
          simp [cosineScan, hb, hs2]
        rw [List.map_cons, h2, h1]
        rfl
      | some v =>
        obtain ⟨rest', g⟩ := v
        have h1 : cosineScan t e ((g0, c0, n0) :: rest)
            = some ((g0, c0, n0) :: rest', g) := by
          simp [cosineScan, hb, hs]
        have hs2 : cosineScan t e (rest.map (fun c => (f c.1, c.2)))
            = some (rest'.map (fun c => (f c.1, c.2)), f g) := by
          rw [ih, hs]
          rfl
        have h2 : cosineScan t e ((f g0, c0, n0) :: rest.map (fun c => (f c.1, c.2)))
            = some ((f g0, c0, n0) :: rest'.map (fun c => (f c.1, c.2)), f g) := by
          simp [cosineScan, hb, hs2]
        rw [List.map_cons, h2, h1]
        rfl

lemma euclideanScan_relabel (f : ℕ → G) (t : ℝ) (e : Emb) :
    ∀ cl : List (ℕ × Emb × ℕ),
      euclideanScan t e (cl.map (fun c => (f c.1, c.2)))
        = (euclideanScan t e cl).map
            (fun r => (r.1.map (fun c => (f c.1, c.2)), f r.2)) := by
  intro cl
  induction cl with
  | nil => simp [euclideanScan]
  | cons hd rest ih =>
    obtain ⟨g0, c0, n0⟩ := hd
    by_cases hb : vnorm (vsub e c0) ≤ t
    · simp [euclideanScan, hb]
    · cases hs : euclideanScan t e rest with
      | none =>
        have h1 : euclideanScan t e ((g0, c0, n0) :: rest) = none := by
          simp [euclideanScan, hb, hs]
        have hs2 : euclideanScan t e (rest.map (fun c => (f c.1, c.2))) = none := by
          rw [ih, hs]
          rfl
        have h2 : euclideanScan t e ((f g0, c0, n0) :: rest.map (fun c => (f c.1, c.2)))
            = none := by
          simp [euclideanScan, hb, hs2]
        rw [List.map_cons, h2, h1]
        rfl
      | some v =>
        obtain ⟨rest', g⟩ := v
        have h1 : euclideanScan t e ((g0, c0, n0) :: rest)
            = some ((g0, c0, n0) :: rest', g) := by
          simp [euclideanScan, hb, hs]
        have hs2 : euclideanScan t e (rest.map (fun c => (f c.1, c.2)))
            = some (rest'.map (fun c => (f c.1, c.2)), f g) := by
          rw [ih, hs]
          rfl
        have h2 : euclideanScan t e ((f g0, c0, n0) :: rest.map (fun c => (f c.1, c.2)))
            = some ((f g0, c0, n0) :: rest'.map (fun c => (f c.1, c.2)), f g) := by
          simp [euclideanScan, hb, hs2]
        rw [List.map_cons, h2, h1]
        rfl

lemma clusterCosineAux_relabel (f : ℕ → G) (t : ℝ) :
    ∀ (items : List (FaceId × Emb)) (cl : List (ℕ × Emb × ℕ)) (k : ℕ),
      clusterCosineAux f t items (cl.map (fun c => (f c.1, c.2))) k
        = ((clusterCosineAux (fun n => n) t items cl k).1.map (fun a => (a.1, f a.2)),
            (clusterCosineAux (fun n => n) t items cl k).2) := by
  intro items
  induction items with
  | nil => intro cl k; simp [clusterCosineAux]
  | cons p rest ih =>
    intro cl k
    obtain ⟨fid, emb⟩ := p
    cases hs : cosineScan t (unitNormalize emb) cl with
    | some v =>
      obtain ⟨cl', g⟩ := v
      have hs2 : cosineScan t (unitNormalize emb) (cl.map (fun c => (f c.1, c.2)))
          = some (cl'.map (fun c => (f c.1, c.2)), f g) := by
        rw [cosineScan_relabel, hs]
        rfl
      rw [clusterCosineAux_cons_some hs2, clusterCosineAux_cons_some hs, ih]
      simp
    | none =>
      have hs2 : cosineScan t (unitNormalize emb) (cl.map (fun c => (f c.1, c.2))) = none := by
        rw [cosineScan_relabel, hs]
        rfl
      rw [clusterCosineAux_cons_none hs2, clusterCosineAux_cons_none hs]
      rw [show cl.map (fun c => (f c.1, c.2)) ++ [(f k, unitNormalize emb, 1)]
          = (cl ++ [(k, unitNormalize emb, 1)]).map
              (fun c : ℕ × Emb × ℕ => (f c.1, c.2)) from by simp]
      rw [ih]
      simp

lemma clusterEuclideanAux_relabel (f : ℕ → G) (t : ℝ) :
    ∀ (items : List (FaceId × Emb)) (cl : List (ℕ × Emb × ℕ)) (k : ℕ),
      clusterEuclideanAux f t items (cl.map (fun c => (f c.1, c.2))) k
        = ((clusterEuclideanAux (fun n => n) t items cl k).1.map (fun a => (a.1, f a.2)),
            (clusterEuclideanAux (fun n => n) t items cl k).2) := by
  intro items
  induction items with
  | nil => intro cl k; simp [clusterEuclideanAux]
  | cons p rest ih =>
    intro cl k
    obtain ⟨fid, emb⟩ := p
    cases hs : euclideanScan t emb cl with
    | some v =>
      obtain ⟨cl', g⟩ := v
      have hs2 : euclideanScan t emb (cl.map (fun c => (f c.1, c.2)))
          = some (cl'.map (fun c => (f c.1, c.2)), f g) := by
        rw [euclideanScan_relabel, hs]
        rfl
      rw [clusterEuclideanAux_cons_some hs2, clusterEuclideanAux_cons_some hs, ih]
      simp
    | none =>
      have hs2 : euclideanScan t emb (cl.map (fun c => (f c.1, c.2))) = none := by
        rw [euclideanScan_relabel, hs]
        rfl
      rw [clusterEuclideanAux_cons_none hs2, clusterEuclideanAux_cons_none hs]
      rw [show cl.map (fun c => (f c.1, c.2)) ++ [(f k, emb, 1)]
          = (cl ++ [(k, emb, 1)]).map
              (fun c : ℕ × Emb × ℕ => (f c.1, c.2)) from by simp]
      rw [ih]
      simp

lemma runModel_relabel (f : ℕ → G) (tIns tRec : ℝ) (m : Model)
    (items : List (FaceId × Emb)) (k : ℕ) :
    runModel f tIns tRec m items k
      = ((runModel (fun n => n) tIns tRec m items k).1.map (fun a => (a.1, f a.2)),
          (runModel (fun n => n) tIns tRec m items k).2) := by
  unfold runModel
  by_cases hm : m = "face_recognition"
  · rw [if_pos hm, if_pos hm]
    have h := clusterEuclideanAux_relabel f tRec items [] k
    simpa using h
  · rw [if_neg hm, if_neg hm]
    have h := clusterCosineAux_relabel f tIns items [] k
    simpa using h

lemma clusterGroups_relabel (f : ℕ → G) (tIns tRec : ℝ) :
    ∀ (groups : List (Model × List (FaceId × Emb))) (k : ℕ),
      clusterGroups f tIns tRec groups k
        = ((clusterGroups (fun n => n) tIns tRec groups k).1.map (fun a => (a.1, f a.2)),
            (clusterGroups (fun n => n) tIns tRec groups k).2) := by
  intro groups
  induction groups with
  | nil => intro k; simp [clusterGroups]
  | cons gp rest ih =>
    intro k
    obtain ⟨m, items⟩ := gp
    simp only [clusterGroups]
    rw [runModel_relabel, ih]
    simp

lemma cluster_relabel (f : ℕ → G) (tIns tRec : ℝ) (faces : List (FaceId × Emb × Model)) :
    cluster f tIns tRec faces
      = (cluster (fun n => n) tIns tRec faces).map (fun a => (a.1, f a.2)) := by
  unfold cluster
  by_cases hf : faces.isEmpty
  · rw [if_pos hf, if_pos hf]
    rfl
  · rw [if_neg hf, if_neg hf, clusterGroups_relabel]

lemma sameGroup_map_iff (f : ℕ → G) (hf : Function.Injective f)
    (as' : List (FaceId × ℕ)) (i j : FaceId) :
    sameGroup (as'.map (fun a => (a.1, f a.2))) i j ↔ sameGroup as' i j := by
  constructor
  · rintro ⟨g, hi, hj⟩
    rcases List.mem_map.mp hi with ⟨a, ha, hae⟩
    rcases List.mem_map.mp hj with ⟨b, hb, hbe⟩
    simp only [Prod.mk.injEq] at hae hbe
    obtain ⟨ha1, ha2⟩ := hae
    obtain ⟨hb1, hb2⟩ := hbe
    have hba : b.2 = a.2 := hf (by rw [hb2, ha2])
    refine ⟨a.2, ?_, ?_⟩
    · rw [← ha1]
      exact ha
    · rw [← hb1, ← hba]
      exact hb
  · rintro ⟨g, hi, hj⟩
    exact ⟨f g, List.mem_map.mpr ⟨(i, g), hi, rfl⟩, List.mem_map.mpr ⟨(j, g), hj, rfl⟩⟩

/-- C7: for a fixed input list and fixed thresholds, two runs of the
Clusterer with different supplies of freshly minted opaque labels (any two
injective supplies, possibly into different token types) give the same
partition of identities into groups: two identities share a label in one run
exactly when they share a label in the other, even though the labels
themselves differ. -/
theorem cluster_deterministic_partition {G1 G2 : Type} (f : ℕ → G1) (g : ℕ → G2)
    (hf : Function.Injective f) (hg : Function.Injective g)
    (tIns tRec : ℝ) (faces : List (FaceId × Emb × Model)) (i j : FaceId) :
    sameGroup (cluster f tIns tRec faces) i j
      ↔ sameGroup (cluster g tIns tRec faces) i j := by
  rw [cluster_relabel f, cluster_relabel g, sameGroup_map_iff f hf, sameGroup_map_iff g hg]

/-- Witness for C7 with the identity label supply and one concrete face. -/
theorem cluster_deterministic_partition_witness :
    Function.Injective (fun n : ℕ => n)
    ∧ (sameGroup (cluster (fun n : ℕ => n) ((6 : ℝ) / 10) ((6 : ℝ) / 10)
          [((1 : FaceId), e1, "insightface")]) 1 1
      ↔ sameGroup (cluster (fun n : ℕ => n) ((6 : ℝ) / 10) ((6 : ℝ) / 10)
          [((1 : FaceId), e1, "insightface")]) 1 1) :=
  ⟨fun a b h => h,
    cluster_deterministic_partition (fun n : ℕ => n) (fun n : ℕ => n)
      (fun a b h => h) (fun a b h => h) ((6 : ℝ) / 10) ((6 : ℝ) / 10)
      [((1 : FaceId), e1, "insightface")] 1 1⟩

lemma clusterCosineAux_fst (fresh : ℕ → G) (t : ℝ) :
    ∀ (items : List (FaceId × Emb)) (cl : List (G × Emb × ℕ)) (k : ℕ),
      (clusterCosineAux fresh t items cl k).1.map Prod.fst = items.map Prod.fst := by
  intro items
  induction items with
  | nil => intro cl k; simp [clusterCosineAux]
  | cons p rest ih =>
    intro cl k
    obtain ⟨fid, emb⟩ := p
    cases hs : cosineScan t (unitNormalize emb) cl with
    | some v =>
      obtain ⟨cl', g⟩ := v
      rw [clusterCosineAux_cons_some hs]
      simp [ih]
    | none =>
      rw [clusterCosineAux_cons_none hs]
      simp [ih]

lemma clusterEuclideanAux_fst (fresh : ℕ → G) (t : ℝ) :
    ∀ (items : List (FaceId × Emb)) (cl : List (G × Emb × ℕ)) (k : ℕ),
      (clusterEuclideanAux fresh t items cl k).1.map Prod.fst = items.map Prod.fst := by
  intro items
  induction items with
  | nil => intro cl k; simp [clusterEuclideanAux]
  | cons p rest ih =>
    intro cl k
    obtain ⟨fid, emb⟩ := p
    cases hs : euclideanScan t emb cl with
    | some v =>
      obtain ⟨cl', g⟩ := v
      rw [clusterEuclideanAux_cons_some hs]
      simp [ih]
    | none =>
      rw [clusterEuclideanAux_cons_none hs]
      simp [ih]

lemma runModel_fst (fresh : ℕ → G) (tIns tRec : ℝ) (m : Model)
    (items : List (FaceId × Emb)) (k : ℕ) :
    (runModel fresh tIns tRec m items k).1.map Prod.fst = items.map Prod.fst := by
  unfold runModel
  by_cases hm : m = "face_recognition"
  · rw [if_pos hm, clusterEuclideanAux_fst]
  · rw [if_neg hm, clusterCosineAux_fst]

lemma clusterGroups_fst (fresh : ℕ → G) (tIns tRec : ℝ) :
    ∀ (groups : List (Model × List (FaceId × Emb))) (k : ℕ),
      (clusterGroups fresh tIns tRec groups k).1.map Prod.fst
        = ((groups.map (fun q => q.2.map Prod.fst))).flatten := by
  intro groups
  induction groups with
  | nil => intro k; simp [clusterGroups]
  | cons gp rest ih =>
    intro k
    obtain ⟨m, items⟩ := gp
    simp only [clusterGroups, List.map_cons, List.flatten_cons]
    rw [List.map_append, runModel_fst, ih]

lemma addToModel_flatten_perm (m : Model) (p : FaceId × Emb) :
    ∀ acc : List (Model × List (FaceId × Emb)),
      List.Perm ((addToModel acc m p).map (fun q => q.2)).flatten
        ((acc.map (fun q => q.2)).flatten ++ [p]) := by
  intro acc
  induction acc with
  | nil => simp [addToModel]
  | cons hd rest ih =>
    obtain ⟨m', l⟩ := hd
    by_cases hm : m' = m
    · simp only [addToModel, hm, if_true, List.map_cons, List.flatten_cons]
      rw [List.append_assoc, List.append_assoc]
      exact List.Perm.append_left l List.perm_append_comm
    · simp only [addToModel, hm, if_false, List.map_cons, List.flatten_cons]
      rw [List.append_assoc]
      exact List.Perm.append_left l (ih)

lemma byModelAux_flatten_perm :
    ∀ (faces : List (FaceId × Emb × Model)) (acc : List (Model × List (FaceId × Emb))),
      List.Perm ((faces.foldl (fun acc f => addToModel acc f.2.2 (f.1, f.2.1)) acc).map
          (fun q => q.2)).flatten
        ((acc.map (fun q => q.2)).flatten ++ faces.map (fun f => (f.1, f.2.1))) := by
  intro faces
  induction faces with
  | nil => intro acc; simp
  | cons f rest ih =>
    intro acc
    simp only [List.foldl_cons, List.map_cons]
    refine (ih (addToModel acc f.2.2 (f.1, f.2.1))).trans ?_
    refine (List.Perm.append_right (rest.map (fun f => (f.1, f.2.1)))
      (addToModel_flatten_perm f.2.2 (f.1, f.2.1) acc)).trans ?_
    rw [List.append_assoc, List.singleton_append]

lemma byModel_flatten_perm (faces : List (FaceId × Emb × Model)) :
    List.Perm ((byModel faces).map (fun q => q.2)).flatten
      (faces.map (fun f => (f.1, f.2.1))) := by
  have h := byModelAux_flatten_perm faces []
  simpa [byModel] using h

lemma cluster_fst_perm (fresh : ℕ → G) (tIns tRec : ℝ)
    (faces : List (FaceId × Emb × Model)) :
    List.Perm ((cluster fresh tIns tRec faces).map Prod.fst)
      (faces.map (fun f => f.1)) := by
  unfold cluster
  by_cases hf : faces.isEmpty
  · rw [if_pos hf]
    cases faces with
    | nil => simp
    | cons a l => simp [List.isEmpty] at hf
  · rw [if_neg hf, clusterGroups_fst]
    have h1 : ((byModel faces).map (fun q => q.2.map Prod.fst)).flatten
        = (((byModel faces).map (fun q => q.2)).flatten).map Prod.fst := by
      rw [List.map_flatten, List.map_map]
      rfl
    rw [h1]
    have h2 := (byModel_flatten_perm faces).map (Prod.fst (α := FaceId) (β := Emb))
    refine h2.trans ?_
    rw [List.map_map]
    exact List.Perm.refl _

lemma foldl_updateGroup_faces (as' : List (ℕ × G)) :
    ∀ st : Store G,
      (as'.foldl (fun s a => updateGroup s a.1 a.2) st).faces
        = st.faces.map (fun fr => as'.foldl (fun fr a =>
            if fr.id = a.1 then
              ⟨fr.id, fr.photo_id, fr.embedding, fr.bbox, fr.model_type, some a.2⟩
            else fr) fr) := by
  intro st
  induction as' generalizing st with
  | nil => simp
  | cons a as ih =>
    simp only [List.foldl_cons]
    rw [ih]
    unfold updateGroup
    simp [List.map_map]

lemma foldl_updRow_group (as' : List (ℕ × G)) :
    ∀ fr : FaceRow G, (fr.group_id ≠ none ∨ fr.id ∈ as'.map Prod.fst) →
      (as'.foldl (fun fr a =>
          if fr.id = a.1 then
            ⟨fr.id, fr.photo_id, fr.embedding, fr.bbox, fr.model_type, some a.2⟩
          else fr) fr).group_id ≠ none := by
  induction as' with
  | nil =>
    intro fr h
    rcases h with h | h
    · exact h
    · simp at h
  | cons a as ih =>
    intro fr h
    simp only [List.foldl_cons]
    by_cases hid : fr.id = a.1
    · rw [if_pos hid]
      exact ih _ (Or.inl (by simp))
    · rw [if_neg hid]
      rcases h with h | h
      · exact ih _ (Or.inl h)
      · rw [List.map_cons] at h
        rcases List.mem_cons.mp h with h1 | h1
        · exact absurd h1 hid
        · exact ih _ (Or.inr h1)

/-- C3: after a run of the Full Reclustering Step, every stored face carries a
non-null group label, and the Clusterer returns exactly one (identity, label)
assignment per face in its input: the identities of its output are a
permutation of the identities of its input. -/
theorem recluster_labels_every_face (fresh : ℕ → G) (tIns tRec : ℝ) (st : Store G) :
    (∀ fr ∈ (clusterAll fresh tIns tRec st).faces, ∃ g, fr.group_id = some g)
    ∧ List.Perm ((cluster fresh tIns tRec
          (st.faces.map (fun f => (f.id, f.embedding, f.model_type)))).map Prod.fst)
        (st.faces.map (fun f => f.id)) := by
  have hperm : List.Perm ((cluster fresh tIns tRec
        (st.faces.map (fun f => (f.id, f.embedding, f.model_type)))).map Prod.fst)
      (st.faces.map (fun f => f.id)) := by
    refine (cluster_fst_perm fresh tIns tRec _).trans ?_
    rw [List.map_map]
    exact List.Perm.refl _
  refine ⟨?_, hperm⟩
  intro fr hfr
  unfold clusterAll at hfr
  rw [foldl_updateGroup_faces] at hfr
  rcases List.mem_map.mp hfr with ⟨fr0, hfr0, hrow⟩
  have hid0 : fr0.id ∈ st.faces.map (fun f => f.id) := by
    have : fr0.id ∈ (clearGroups st).faces.map (fun f => f.id) :=
      List.mem_map.mpr ⟨fr0, hfr0, rfl⟩
    simpa [clearGroups, List.map_map] using this
  have hmem : fr0.id ∈ (cluster fresh tIns tRec
      (st.faces.map (fun f => (f.id, f.embedding, f.model_type)))).map Prod.fst :=
    hperm.mem_iff.mpr hid0
  have hne := foldl_updRow_group
    (cluster fresh tIns tRec (st.faces.map (fun f => (f.id, f.embedding, f.model_type))))
    fr0 (Or.inr hmem)
  rw [hrow] at hne
  exact Option.ne_none_iff_exists'.mp hne

lemma cosineScan_labels (t : ℝ) (e : Emb) :
    ∀ (cl cl' : List (G × Emb × ℕ)) (g : G), cosineScan t e cl = some (cl', g) →
      g ∈ cl.map (fun c => c.1) ∧ cl'.map (fun c => c.1) = cl.map (fun c => c.1) := by
  intro cl
  induction cl with
  | nil => intro cl' g h; simp [cosineScan] at h
  | cons hd rest ih =>
    obtain ⟨g0, c0, n0⟩ := hd
    intro cl' g h
    by_cases hb : dot e c0 ≥ t
    · rw [show cosineScan t e ((g0, c0, n0) :: rest)
          = some ((g0, updCentroid c0 n0 e, n0 + 1) :: rest, g0) from by
        simp [cosineScan, hb]] at h
      simp only [Option.some.injEq, Prod.mk.injEq] at h
      obtain ⟨hcl, hg⟩ := h
      subst hcl
      subst hg
      simp
    · cases hs : cosineScan t e rest with
      | none =>
        rw [show cosineScan t e ((g0, c0, n0) :: rest) = none from by
          simp [cosineScan, hb, hs]] at h
        exact absurd h (by simp)
      | some v =>
        obtain ⟨rest', gg⟩ := v
        rw [show cosineScan t e ((g0, c0, n0) :: rest)
            = some ((g0, c0, n0) :: rest', gg) from by
          simp [cosineScan, hb, hs]] at h
        simp only [Option.some.injEq, Prod.mk.injEq] at h
        obtain ⟨hcl, hg⟩ := h
        subst hcl
        subst hg
        obtain ⟨h1, h2⟩ := ih rest' gg hs
        constructor
        · simp only [List.map_cons]
          exact List.mem_cons_of_mem _ h1
        · simp only [List.map_cons, h2]

lemma euclideanScan_labels (t : ℝ) (e : Emb) :
    ∀ (cl cl' : List (G × Emb × ℕ)) (g : G), euclideanScan t e cl = some (cl', g) →
      g ∈ cl.map (fun c => c.1) ∧ cl'.map (fun c => c.1) = cl.map (fun c => c.1) := by
  intro cl
  induction cl with
  | nil => intro cl' g h; simp [euclideanScan] at h
  | cons hd rest ih =>
    obtain ⟨g0, c0, n0⟩ := hd
    intro cl' g h
    by_cases hb : vnorm (vsub e c0) ≤ t
    · rw [show euclideanScan t e ((g0, c0, n0) :: rest)
          = some ((g0, updCentroid c0 n0 e, n0 + 1) :: rest, g0) from by
        simp [euclideanScan, hb]] at h
      simp only [Option.some.injEq, Prod.mk.injEq] at h
      obtain ⟨hcl, hg⟩ := h
      subst hcl
      subst hg
      simp
    · cases hs : euclideanScan t e rest with
      | none =>
        rw [show euclideanScan t e ((g0, c0, n0) :: rest) = none from by
          simp [euclideanScan, hb, hs]] at h
        exact absurd h (by simp)
      | some v =>
        obtain ⟨rest', gg⟩ := v
        rw [show euclideanScan t e ((g0, c0, n0) :: rest)
            = some ((g0, c0, n0) :: rest', gg) from by
          simp [euclideanScan, hb, hs]] at h
        simp only [Option.some.injEq, Prod.mk.injEq] at h
        obtain ⟨hcl, hg⟩ := h
        subst hcl
        subst hg
        obtain ⟨h1, h2⟩ := ih rest' gg hs
        constructor
        · simp only [List.map_cons]
          exact List.mem_cons_of_mem _ h1
        · simp only [List.map_cons, h2]

lemma clusterCosineAux_labels_range (fresh : ℕ → G) (t : ℝ) :
    ∀ (items : List (FaceId × Emb)) (cl : List (G × Emb × ℕ)) (k : ℕ),
      k ≤ (clusterCosineAux fresh t items cl k).2
      ∧ ∀ g' ∈ (clusterCosineAux fresh t items cl k).1.map Prod.snd,
          g' ∈ cl.map (fun c => c.1)
          ∨ ∃ m, k ≤ m ∧ m < (clusterCosineAux fresh t items cl k).2 ∧ g' = fresh m := by
  intro items
  induction items with
  | nil =>
    intro cl k
    constructor
    · simp [clusterCosineAux]
    · intro g' hg'
      simp [clusterCosineAux] at hg'
  | cons p rest ih =>
    intro cl k
    obtain ⟨fid, emb⟩ := p
    cases hs : cosineScan t (unitNormalize emb) cl with
    | some v =>
      obtain ⟨cl', g⟩ := v
      rw [clusterCosineAux_cons_some hs]
      obtain ⟨hm, hl⟩ := ih cl' k
      refine ⟨hm, ?_⟩
      intro g' hg'
      simp only [List.map_cons] at hg'
      rcases List.mem_cons.mp hg' with h1 | h1
      · subst h1
        exact Or.inl (cosineScan_labels t (unitNormalize emb) cl cl' g' hs).1
      · rcases hl g' h1 with h2 | h2
        · rw [(cosineScan_labels t (unitNormalize emb) cl cl' g hs).2] at h2
          exact Or.inl h2
        · exact Or.inr h2
    | none =>
      rw [clusterCosineAux_cons_none hs]
      obtain ⟨hm, hl⟩ := ih (cl ++ [(fresh k, unitNormalize emb, 1)]) (k + 1)
      refine ⟨by omega, ?_⟩
      intro g' hg'
      simp only [List.map_cons] at hg'
      rcases List.mem_cons.mp hg' with h1 | h1
      · subst h1
        exact Or.inr ⟨k, le_refl k, by omega, rfl⟩
      · rcases hl g' h1 with h2 | h2
        · rw [List.map_append] at h2
          rcases List.mem_append.mp h2 with h3 | h3
          · exact Or.inl h3
          · simp at h3
            exact Or.inr ⟨k, le_refl k, by omega, h3⟩
        · obtain ⟨m, hm1, hm2, hm3⟩ := h2
          exact Or.inr ⟨m, by omega, hm2, hm3⟩

lemma clusterEuclideanAux_labels_range (fresh : ℕ → G) (t : ℝ) :
    ∀ (items : List (FaceId × Emb)) (cl : List (G × Emb × ℕ)) (k : ℕ),
      k ≤ (clusterEuclideanAux fresh t items cl k).2
      ∧ ∀ g' ∈ (clusterEuclideanAux fresh t items cl k).1.map Prod.snd,
          g' ∈ cl.map (fun c => c.1)
          ∨ ∃ m, k ≤ m ∧ m < (clusterEuclideanAux fresh t items cl k).2 ∧ g' = fresh m := by
  intro items
  induction items with
  | nil =>
    intro cl k
    constructor
    · simp [clusterEuclideanAux]
    · intro g' hg'
      simp [clusterEuclideanAux] at hg'
  | cons p rest ih =>
    intro cl k
    obtain ⟨fid, emb⟩ := p
    cases hs : euclideanScan t emb cl with
    | some v =>
      obtain ⟨cl', g⟩ := v
      rw [clusterEuclideanAux_cons_some hs]
      obtain ⟨hm, hl⟩ := ih cl' k
      refine ⟨hm, ?_⟩
      intro g' hg'
      simp only [List.map_cons] at hg'
      rcases List.mem_cons.mp hg' with h1 | h1
      · subst h1
        exact Or.inl (euclideanScan_labels t emb cl cl' g' hs).1
      · rcases hl g' h1 with h2 | h2
        · rw [(euclideanScan_labels t emb cl cl' g hs).2] at h2
          exact Or.inl h2
        · exact Or.inr h2
    | none =>
      rw [clusterEuclideanAux_cons_none hs]
      obtain ⟨hm, hl⟩ := ih (cl ++ [(fresh k, emb, 1)]) (k + 1)
      refine ⟨by omega, ?_⟩
      intro g' hg'
      simp only [List.map_cons] at hg'
      rcases List.mem_cons.mp hg' with h1 | h1
      · subst h1
        exact Or.inr ⟨k, le_refl k, by omega, rfl⟩
      · rcases hl g' h1 with h2 | h2
        · rw [List.map_append] at h2
          rcases List.mem_append.mp h2 with h3 | h3
          · exact Or.inl h3
          · simp at h3
            exact Or.inr ⟨k, le_refl k, by omega, h3⟩
        · obtain ⟨m, hm1, hm2, hm3⟩ := h2
          exact Or.inr ⟨m, by omega, hm2, hm3⟩

lemma runModel_labels_range (fresh : ℕ → G) (tIns tRec : ℝ) (m : Model)
    (items : List (FaceId × Emb)) (k : ℕ) :
    k ≤ (runModel fresh tIns tRec m items k).2
    ∧ ∀ g' ∈ (runModel fresh tIns tRec m items k).1.map Prod.snd,
        ∃ mm, k ≤ mm ∧ mm < (runModel fresh tIns tRec m items k).2 ∧ g' = fresh mm := by
  unfold runModel
  by_cases hm : m = "face_recognition"
  · rw [if_pos hm]
    obtain ⟨h1, h2⟩ := clusterEuclideanAux_labels_range fresh tRec items [] k
    refine ⟨h1, ?_⟩
    intro g' hg'
    rcases h2 g' hg' with h3 | h3
    · simp at h3
    · exact h3
  · rw [if_neg hm]
    obtain ⟨h1, h2⟩ := clusterCosineAux_labels_range fresh tIns items [] k
    refine ⟨h1, ?_⟩
    intro g' hg'
    rcases h2 g' hg' with h3 | h3
    · simp at h3
    · exact h3

lemma clusterPieces_labels_lb (fresh : ℕ → G) (tIns tRec : ℝ) :
    ∀ (groups : List (Model × List (FaceId × Emb))) (k : ℕ)
      (p : Model × List (FaceId × G)),
      p ∈ clusterPieces fresh tIns tRec groups k →
      ∀ a ∈ p.2, ∃ mm, k ≤ mm ∧ a.2 = fresh mm := by
  intro groups
  induction groups with
  | nil => intro k p hp; simp [clusterPieces] at hp
  | cons gp rest ih =>
    intro k p hp
    obtain ⟨m, items⟩ := gp
    simp only [clusterPieces] at hp
    rcases List.mem_cons.mp hp with h1 | h1
    · subst h1
      intro a ha
      obtain ⟨mm, hm1, hm2, hm3⟩ := (runModel_labels_range fresh tIns tRec m items k).2 a.2
        (List.mem_map.mpr ⟨a, ha, rfl⟩)
      exact ⟨mm, hm1, hm3⟩
    · intro a ha
      obtain ⟨mm, hm1, hm2⟩ := ih (runModel fresh tIns tRec m items k).2 p h1 a ha
      exact ⟨mm, le_trans (runModel_labels_range fresh tIns tRec m items k).1 hm1, hm2⟩

lemma clusterPieces_pairwise (fresh : ℕ → G) (hinj : Function.Injective fresh)
    (tIns tRec : ℝ) :
    ∀ (groups : List (Model × List (FaceId × Emb))) (k : ℕ),
      List.Pairwise (fun p q => ∀ a ∈ p.2, ∀ b ∈ q.2, a.2 ≠ b.2)
        (clusterPieces fresh tIns tRec groups k) := by
  intro groups
  induction groups with
  | nil =>
    intro k
    simp only [clusterPieces]
    exact List.Pairwise.nil
  | cons gp rest ih =>
    intro k
    obtain ⟨m, items⟩ := gp
    simp only [clusterPieces]
    constructor
    · intro q hq a ha b hb
      obtain ⟨m1, hm1a, hm1b, hm1c⟩ := (runModel_labels_range fresh tIns tRec m items k).2 a.2
        (List.mem_map.mpr ⟨a, ha, rfl⟩)
      obtain ⟨m2, hm2a, hm2b⟩ := clusterPieces_labels_lb fresh tIns tRec rest
        (runModel fresh tIns tRec m items k).2 q hq b hb
      rw [hm1c, hm2b]
      intro hEq
      have hmm : m1 = m2 := hinj hEq
      omega
    · exact ih _

lemma clusterGroups_eq_pieces (fresh : ℕ → G) (tIns tRec : ℝ) :
    ∀ (groups : List (Model × List (FaceId × Emb))) (k : ℕ),
      (clusterGroups fresh tIns tRec groups k).1
        = ((clusterPieces fresh tIns tRec groups k).map (fun p => p.2)).flatten := by
  intro groups
  induction groups with
  | nil => intro k; simp [clusterGroups, clusterPieces]
  | cons gp rest ih =>
    intro k
    obtain ⟨m, items⟩ := gp
    simp only [clusterGroups, clusterPieces, List.map_cons, List.flatten_cons]
    rw [ih]

lemma clusterPieces_ids (fresh : ℕ → G) (tIns tRec : ℝ) :
    ∀ (groups : List (Model × List (FaceId × Emb))) (k : ℕ),
      (clusterPieces fresh tIns tRec groups k).map (fun p => (p.1, p.2.map Prod.fst))
        = groups.map (fun q => (q.1, q.2.map Prod.fst)) := by
  intro groups
  induction groups with
  | nil => intro k; simp [clusterPieces]
  | cons gp rest ih =>
    intro k
    obtain ⟨m, items⟩ := gp
    simp only [clusterPieces, List.map_cons]
    rw [runModel_fst, ih]

lemma mem_addToModel_snd (m : Model) (p x : FaceId × Emb) :
    ∀ (acc : List (Model × List (FaceId × Emb))) (q : Model × List (FaceId × Emb)),
      q ∈ addToModel acc m p → x ∈ q.2 →
      (∃ q1 ∈ acc, q1.1 = q.1 ∧ x ∈ q1.2) ∨ (q.1 = m ∧ x = p) := by
  intro acc
  induction acc with
  | nil =>
    intro q hq hx
    simp only [addToModel, List.mem_singleton] at hq
    subst hq
    simp only [List.mem_singleton] at hx
    exact Or.inr ⟨rfl, hx⟩
  | cons hd rest ih =>
    intro q hq hx
    obtain ⟨m0, l0⟩ := hd
    by_cases hm0 : m0 = m
    · rw [show addToModel ((m0, l0) :: rest) m p = (m0, l0 ++ [p]) :: rest from by
        simp [addToModel, hm0]] at hq
      rcases List.mem_cons.mp hq with h1 | h1
      · subst h1
        rcases List.mem_append.mp hx with h2 | h2
        · exact Or.inl ⟨(m0, l0), List.mem_cons_self _ _, rfl, h2⟩
        · simp only [List.mem_singleton] at h2
          exact Or.inr ⟨hm0, h2⟩
      · exact Or.inl ⟨q, List.mem_cons_of_mem _ h1, rfl, hx⟩
    · rw [show addToModel ((m0, l0) :: rest) m p = (m0, l0) :: addToModel rest m p from by
        simp [addToModel, hm0]] at hq
      rcases List.mem_cons.mp hq with h1 | h1
      · subst h1
        exact Or.inl ⟨(m0, l0), List.mem_cons_self _ _, rfl, hx⟩
      · rcases ih q h1 hx with h2 | h2
        · obtain ⟨q1, hq1, hq1e, hxq1⟩ := h2
          exact Or.inl ⟨q1, List.mem_cons_of_mem _ hq1, hq1e, hxq1⟩
        · exact Or.inr h2

lemma byModelAux_mem :
    ∀ (faces : List (FaceId × Emb × Model)) (acc : List (Model × List (FaceId × Emb)))
      (q : Model × List (FaceId × Emb)),
      q ∈ faces.foldl (fun acc f => addToModel acc f.2.2 (f.1, f.2.1)) acc →
      ∀ x ∈ q.2, (x.1, x.2, q.1) ∈ faces ∨ ∃ q1 ∈ acc, q1.1 = q.1 ∧ x ∈ q1.2 := by
  intro faces
  induction faces with
  | nil =>
    intro acc q hq x hx
    exact Or.inr ⟨q, hq, rfl, hx⟩
  | cons f rest ih =>
    intro acc q hq x hx
    simp only [List.foldl_cons] at hq
    rcases ih _ q hq x hx with h1 | h1
    · exact Or.inl (List.mem_cons_of_mem _ h1)
    · obtain ⟨q1, hq1, hq1e, hxq1⟩ := h1
      rcases mem_addToModel_snd f.2.2 (f.1, f.2.1) x acc q1 hq1 hxq1 with h2 | h2
      · obtain ⟨q2, hq2, hq2e, hxq2⟩ := h2
        exact Or.inr ⟨q2, hq2, hq2e.trans hq1e, hxq2⟩
      · obtain ⟨hq1m, hxp⟩ := h2
        subst hxp
        have hqm : q.1 = f.2.2 := hq1e ▸ hq1m
        left
        rw [hqm]
        exact List.mem_cons_self _ _

lemma byModel_mem (faces : List (FaceId × Emb × Model)) :
    ∀ q ∈ byModel faces, ∀ x ∈ q.2, (x.1, x.2, q.1) ∈ faces := by
  intro q hq x hx
  rcases byModelAux_mem faces [] q hq x hx with h | h
  · exact h
  · simp at h

/-- C5: the Clusterer partitions faces by model type and clusters each
partition independently with that type's own threshold and metric: the output
is the concatenation of per-model-type blocks; each block carries exactly its
bucket's identities; the buckets cover the input faces exactly (as a
permutation) and contain only faces of their own model type; and with an
injective fresh-label supply, blocks of different buckets never share a group
label — two faces of different model types are never compared and never
receive the same label. -/
theorem cluster_partition_by_model (fresh : ℕ → G) (tIns tRec : ℝ)
    (faces : List (FaceId × Emb × Model)) :
    (cluster fresh tIns tRec faces
        = ((clusterPieces fresh tIns tRec (byModel faces) 0).map (fun p => p.2)).flatten)
    ∧ ((clusterPieces fresh tIns tRec (byModel faces) 0).map
          (fun p => (p.1, p.2.map Prod.fst))
        = (byModel faces).map (fun q => (q.1, q.2.map Prod.fst)))
    ∧ List.Perm (((byModel faces).map (fun q => q.2)).flatten)
        (faces.map (fun f => (f.1, f.2.1)))
    ∧ (∀ q ∈ byModel faces, ∀ x ∈ q.2, (x.1, x.2, q.1) ∈ faces)
    ∧ (Function.Injective fresh →
        List.Pairwise (fun p q => ∀ a ∈ p.2, ∀ b ∈ q.2, a.2 ≠ b.2)
          (clusterPieces fresh tIns tRec (byModel faces) 0)) := by
  refine ⟨?_, clusterPieces_ids fresh tIns tRec _ 0, byModel_flatten_perm faces,
    byModel_mem faces, fun hinj => clusterPieces_pairwise fresh hinj tIns tRec _ 0⟩
  unfold cluster
  by_cases hf : faces.isEmpty
  · rw [if_pos hf]
    cases faces with
    | nil => simp [byModel, clusterPieces]
    | cons a l => simp [List.isEmpty] at hf
  · rw [if_neg hf]
    exact clusterGroups_eq_pieces fresh tIns tRec _ 0

/-- Witness for C5 with the identity label supply and two faces of different
model types. -/
theorem cluster_partition_by_model_witness :
    Function.Injective (fun n : ℕ => n)
    ∧ List.Pairwise (fun p q => ∀ a ∈ p.2, ∀ b ∈ q.2, a.2 ≠ b.2)
        (clusterPieces (fun n : ℕ => n) ((6 : ℝ) / 10) ((6 : ℝ) / 10) (byModel facesW) 0) :=
  ⟨fun _ _ h => h,
    (cluster_partition_by_model (fun n : ℕ => n) ((6 : ℝ) / 10) ((6 : ℝ) / 10)
        facesW).2.2.2.2 (fun _ _ h => h)⟩

lemma addPhoto_faces (st : Store G) (p : PhotoRow) : (addPhoto st p).faces = st.faces := by
  unfold addPhoto
  by_cases hany : st.photos.any (fun q => q.photo_id = p.photo_id) = true
  · rw [if_pos hany]
  · rw [if_neg hany]

lemma addPhoto_photos_mem (st : Store G) (p q : PhotoRow) (hq : q ∈ st.photos)
    (hne : q.photo_id ≠ p.photo_id) : q ∈ (addPhoto st p).photos := by
  unfold addPhoto
  by_cases hany : st.photos.any (fun r => r.photo_id = p.photo_id) = true
  · rw [if_pos hany]
    exact List.mem_map.mpr ⟨q, hq, by rw [if_neg hne]⟩
  · rw [if_neg hany]
    exact List.mem_append_left _ hq

lemma processSingle_err_cases {detect : Detect} {faults : WorkerFaults} {j : PhotoJob}
    {st stj : Store G} {opsj : List StatusOp} {e : String}
    (h : processSingle detect faults j st = (stj, opsj, some e)) :
    stj = st
    ∨ ∃ w hh, stj = addPhoto st ⟨j.photo_id, j.file_path, j.orig_name, w, hh, false⟩ := by
  cases hd : detect j with
  | error e2 =>
    rw [show processSingle detect faults j st = (st, [], some e2) from by
      simp [processSingle, hd]] at h
    simp only [Prod.mk.injEq] at h
    exact Or.inl h.1.symm
  | ok v =>
    obtain ⟨w, hh, dfaces⟩ := v
    by_cases hempty : dfaces.isEmpty = true
    · cases hap : faults.addPhotoErr j with
      | some e2 =>
        rw [show processSingle detect faults j st = (st, [], some e2) from by
          simp [processSingle, hd, hempty, hap]] at h
        simp only [Prod.mk.injEq] at h
        exact Or.inl h.1.symm
      | none =>
        rw [show processSingle detect faults j st
            = (addPhoto st ⟨j.photo_id, j.file_path, j.orig_name, w, hh, true⟩,
                [StatusOp.incrPhotosNoFace], none) from by
          simp [processSingle, hd, hempty, hap]] at h
        simp at h
    · cases hap : faults.addPhotoErr j with
      | some e2 =>
        rw [show processSingle detect faults j st = (st, [], some e2) from by
          simp [processSingle, hd, hempty, hap]] at h
        simp only [Prod.mk.injEq] at h
        exact Or.inl h.1.symm
      | none =>
        cases haf : faults.addFacesErr j with
        | some e2 =>
          rw [show processSingle detect faults j st
              = (addPhoto st ⟨j.photo_id, j.file_path, j.orig_name, w, hh, false⟩,
                  [], some e2) from by
            simp [processSingle, hd, hempty, hap, haf]] at h
          simp only [Prod.mk.injEq] at h
          exact Or.inr ⟨w, hh, h.1.symm⟩
        | none =>
          rw [show processSingle detect faults j st
              = (addFaces
                  (addPhoto st ⟨j.photo_id, j.file_path, j.orig_name, w, hh, false⟩)
                  j.photo_id dfaces, [], none) from by
            simp [processSingle, hd, hempty, hap, haf]] at h
          simp at h

lemma processSingle_err_store {detect : Detect} {faults : WorkerFaults} {j : PhotoJob}
    {st stj : Store G} {opsj : List StatusOp} {e : String}
    (h : processSingle detect faults j st = (stj, opsj, some e)) :
    stj.faces = st.faces
    ∧ ∀ p ∈ st.photos, p.photo_id ≠ j.photo_id → p ∈ stj.photos := by
  rcases processSingle_err_cases h with h1 | ⟨w, hh, h1⟩
  · subst h1
    exact ⟨rfl, fun p hp _ => hp⟩
  · subst h1
    refine ⟨addPhoto_faces st _, ?_⟩
    intro p hp hne
    exact addPhoto_photos_mem st _ p hp hne

lemma processJobsAux_cons_ok {detect : Detect} {faults : WorkerFaults} {j : PhotoJob}
    {rest : List PhotoJob} {st st1 : Store G} {ops1 : List StatusOp}
    (h : processSingle detect faults j st = (st1, ops1, none)) :
    processJobsAux detect faults (j :: rest) st
      = ((processJobsAux detect faults rest st1).1,
          StatusOp.setCurrent j.orig_name ::
            (ops1 ++ StatusOp.incrProcessed :: (processJobsAux detect faults rest st1).2.1),
          (processJobsAux detect faults rest st1).2.2) := by
  simp only [processJobsAux]
  rw [h]

lemma processJobsAux_cons_err {detect : Detect} {faults : WorkerFaults} {j : PhotoJob}
    {rest : List PhotoJob} {st st1 : Store G} {ops1 : List StatusOp} {e : String}
    (h : processSingle detect faults j st = (st1, ops1, some e)) :
    processJobsAux detect faults (j :: rest) st
      = (st1, StatusOp.setCurrent j.orig_name :: ops1, some e) := by
  simp only [processJobsAux]
  rw [h]

lemma processJobsAux_append_ok (detect : Detect) (faults : WorkerFaults) :
    ∀ (l1 : List PhotoJob) (st st' : Store G) (ops : List StatusOp),
      processJobsAux detect faults l1 st = (st', ops, none) →
      ∀ l2, processJobsAux detect faults (l1 ++ l2) st
        = ((processJobsAux detect faults l2 st').1,
            ops ++ (processJobsAux detect faults l2 st').2.1,
            (processJobsAux detect faults l2 st').2.2) := by
  intro l1
  induction l1 with
  | nil =>
    intro st st' ops h l2
    simp only [processJobsAux, Prod.mk.injEq] at h
    obtain ⟨h1, h2, -⟩ := h
    subst h1
    subst h2
    rw [List.nil_append]
    simp only [List.nil_append]
  | cons j rest ih =>
    intro st st' ops h l2
    cases hq : (processSingle detect faults j st).2.2 with
    | some e =>
      have hps : processSingle detect faults j st
          = ((processSingle detect faults j st).1,
              (processSingle detect faults j st).2.1, some e) := by
        rw [← hq]
      rw [processJobsAux_cons_err hps] at h
      simp at h
    | none =>
      have hps : processSingle detect faults j st
          = ((processSingle detect faults j st).1,
              (processSingle detect faults j st).2.1, none) := by
        rw [← hq]
      rw [processJobsAux_cons_ok hps] at h
      simp only [Prod.mk.injEq] at h
      obtain ⟨h1, h2, h3⟩ := h
      have hrest : processJobsAux detect faults rest (processSingle detect faults j st).1
          = ((processJobsAux detect faults rest (processSingle detect faults j st).1).1,
              (processJobsAux detect faults rest (processSingle detect faults j st).1).2.1,
              none) := by
        rw [← h3]
      have hih := ih (processSingle detect faults j st).1
        (processJobsAux detect faults rest (processSingle detect faults j st).1).1
        (processJobsAux detect faults rest (processSingle detect faults j st).1).2.1
        hrest l2
      rw [show (j :: rest) ++ l2 = j :: (rest ++ l2) from rfl,
        processJobsAux_cons_ok hps, hih, ← h1, ← h2]
      simp [List.append_assoc]

lemma statusFrom_append_replace (s0 : TaskStatus) (ops : List StatusOp) (s : TaskStatus) :
    statusFrom s0 (ops ++ [StatusOp.replaceStatus s]) = s := by
  unfold statusFrom
  rw [List.foldl_append]
  rfl

lemma processJobs_err (errMsg : Option String) (fresh : ℕ → G) (tIns tRec : ℝ)
    {detect : Detect} {faults : WorkerFaults} {jobs : List PhotoJob}
    {st st1 : Store G} {ops : List StatusOp} {e : String}
    (h : processJobsAux detect faults jobs st = (st1, ops, some e)) :
    processJobs detect faults true errMsg fresh tIns tRec jobs st
      = (st1, StatusOp.replaceStatus (runningStatus jobs.length) ::
          (ops ++ [StatusOp.replaceStatus (errorStatus e)])) := by
  simp only [processJobs, if_pos]
  rw [h]

lemma processJobs_cluster_err (errMsg : Option String)
    {detect : Detect} {faults : WorkerFaults} {fresh : ℕ → G} {tIns tRec : ℝ}
    {jobs : List PhotoJob} {st st1 stc : Store G} {ops : List StatusOp} {e : String}
    (h1 : processJobsAux detect faults jobs st = (st1, ops, none))
    (h2 : clusterAllF fresh tIns tRec faults.clusterErr st1 = (stc, some e)) :
    processJobs detect faults true errMsg fresh tIns tRec jobs st
      = (stc, StatusOp.replaceStatus (runningStatus jobs.length) ::
          (ops ++ [StatusOp.replaceStatus (errorStatus e)])) := by
  simp only [processJobs, if_pos, h1, h2]

lemma processJobs_stats_err (errMsg : Option String)
    {detect : Detect} {faults : WorkerFaults} {fresh : ℕ → G} {tIns tRec : ℝ}
    {jobs : List PhotoJob} {st st1 stc : Store G} {ops : List StatusOp} {e : String}
    (h1 : processJobsAux detect faults jobs st = (st1, ops, none))
    (h2 : clusterAllF fresh tIns tRec faults.clusterErr st1 = (stc, none))
    (h3 : faults.countStatsErr = some e) :
    processJobs detect faults true errMsg fresh tIns tRec jobs st
      = (stc, StatusOp.replaceStatus (runningStatus jobs.length) ::
          (ops ++ [StatusOp.setState ("done"),
            StatusOp.replaceStatus (errorStatus e)])) := by
  simp only [processJobs, if_pos, h1, h2, h3]

lemma processJobs_faces_err (errMsg : Option String)
    {detect : Detect} {faults : WorkerFaults} {fresh : ℕ → G} {tIns tRec : ℝ}
    {jobs : List PhotoJob} {st st1 stc : Store G} {ops : List StatusOp} {e : String}
    (h1 : processJobsAux detect faults jobs st = (st1, ops, none))
    (h2 : clusterAllF fresh tIns tRec faults.clusterErr st1 = (stc, none))
    (h3 : faults.countStatsErr = none)
    (h4 : faults.facesCountErr = some e) :
    processJobs detect faults true errMsg fresh tIns tRec jobs st
      = (stc, StatusOp.replaceStatus (runningStatus jobs.length) ::
          (ops ++ [StatusOp.setState ("done"),
            StatusOp.setPhotosNoFace (countStats stc).2,
            StatusOp.replaceStatus (errorStatus e)])) := by
  simp only [processJobs, if_pos, h1, h2, h3, h4]

lemma processJobs_ok (errMsg : Option String)
    {detect : Detect} {faults : WorkerFaults} {fresh : ℕ → G} {tIns tRec : ℝ}
    {jobs : List PhotoJob} {st st1 stc : Store G} {ops : List StatusOp}
    (h1 : processJobsAux detect faults jobs st = (st1, ops, none))
    (h2 : clusterAllF fresh tIns tRec faults.clusterErr st1 = (stc, none))
    (h3 : faults.countStatsErr = none)
    (h4 : faults.facesCountErr = none) :
    processJobs detect faults true errMsg fresh tIns tRec jobs st
      = (stc, StatusOp.replaceStatus (runningStatus jobs.length) ::
          (ops ++ [StatusOp.setState ("done"),
            StatusOp.setPhotosNoFace (countStats stc).2,
            StatusOp.setFacesFound (facesCount stc)])) := by
  simp only [processJobs, if_pos, h1, h2, h3, h4]

/-- C2: when job j of a batch fails — any I/O, decode, detection or store
error — after the jobs before it succeeded, the batch stops there: the final
store is exactly the store left by the failing job's partial step on the
prefix store, so everything persisted by jobs 1..j-1 is kept with no
rollback (the failing step never touches earlier face rows, and every photo
row other than the failing job's own id survives — at most the failing job's
photo row was added when add_faces raised after add_photo succeeded); no
reclustering runs; the status trace holds nothing from the jobs after j and
ends in a whole-record error status carrying the failure message; and later
batches still run, from that store. -/
theorem batch_abort_on_first_failure (detect : Detect) (faults : WorkerFaults)
    (errMsg : Option String) (fresh : ℕ → G) (tIns tRec : ℝ)
    (pre post : List PhotoJob) (jb : PhotoJob) (moreBatches : List (List PhotoJob))
    (st st' stj : Store G) (ops opsj : List StatusOp) (e : String) (s0 : TaskStatus)
    (hpre : processJobsAux detect faults pre st = (st', ops, none))
    (hfail : processSingle detect faults jb st' = (stj, opsj, some e)) :
    (processJobs detect faults true errMsg fresh tIns tRec (pre ++ jb :: post) st).1 = stj
    ∧ stj.faces = st'.faces
    ∧ (∀ p ∈ st'.photos, p.photo_id ≠ jb.photo_id → p ∈ stj.photos)
    ∧ (processJobs detect faults true errMsg fresh tIns tRec (pre ++ jb :: post) st).2
        = StatusOp.replaceStatus (runningStatus (pre ++ jb :: post).length) ::
            ((ops ++ (StatusOp.setCurrent jb.orig_name :: opsj))
              ++ [StatusOp.replaceStatus (errorStatus e)])
    ∧ statusFrom s0
        (processJobs detect faults true errMsg fresh tIns tRec (pre ++ jb :: post) st).2
        = errorStatus e
    ∧ processBatches detect faults true errMsg fresh tIns tRec
        ((pre ++ jb :: post) :: moreBatches) st
      = processBatches detect faults true errMsg fresh tIns tRec moreBatches stj := by
  have haux : processJobsAux detect faults (pre ++ jb :: post) st
      = (stj, ops ++ (StatusOp.setCurrent jb.orig_name :: opsj), some e) := by
    rw [processJobsAux_append_ok detect faults pre st st' ops hpre (jb :: post),
      processJobsAux_cons_err hfail]
  have hpj := processJobs_err errMsg fresh tIns tRec haux
  obtain ⟨hfaces, hphotos⟩ := processSingle_err_store hfail
  refine ⟨by rw [hpj], hfaces, hphotos, by rw [hpj], ?_, ?_⟩
  · rw [hpj]
    unfold statusFrom
    rw [List.foldl_cons, List.foldl_append]
    rfl
  · have hne : (pre ++ jb :: post).isEmpty = false := by
      cases pre <;> rfl
    simp only [processBatches, hne, Bool.false_eq_true, if_false]
    rw [hpj]

/-- Witness for C2 at a store failure: add_faces raises on the second job
after its add_photo succeeded, so that job's photo row is persisted while the
first job's photo and face rows survive untouched and the third job is never
attempted. -/
theorem batch_abort_on_first_failure_witness :
    processJobsAux detectW2 faultsW [job1] store0
      = (store3, [StatusOp.setCurrent ("a.jpg"), StatusOp.incrProcessed], none)
    ∧ processSingle detectW2 faultsW jobBad store3 = (store4, [], some ("db locked"))
    ∧ (processJobs detectW2 faultsW true none (fun n => n) ((6 : ℝ) / 10) ((6 : ℝ) / 10)
          ([job1] ++ jobBad :: [job2]) store0).1 = store4
    ∧ store4.faces = store3.faces
    ∧ statusFrom ⟨"idle", 0, 0, "", 0, 0, none⟩
        (processJobs detectW2 faultsW true none (fun n => n) ((6 : ℝ) / 10) ((6 : ℝ) / 10)
          ([job1] ++ jobBad :: [job2]) store0).2 = errorStatus ("db locked") := by
  have hpre : processJobsAux detectW2 faultsW [job1] store0
      = (store3, [StatusOp.setCurrent ("a.jpg"), StatusOp.incrProcessed], none) := rfl
  have hfail : processSingle detectW2 faultsW jobBad store3
      = (store4, [], some ("db locked")) := rfl
  have h := batch_abort_on_first_failure detectW2 faultsW none (fun n => n)
    ((6 : ℝ) / 10) ((6 : ℝ) / 10) [job1] [job2] jobBad [] store0 store3 store4
    [StatusOp.setCurrent ("a.jpg"), StatusOp.incrProcessed] [] ("db locked")
    ⟨"idle", 0, 0, "", 0, 0, none⟩ hpre hfail
  exact ⟨hpre, hfail, h.1, h.2.1, h.2.2.2.2.1⟩

/-- C6: when the Detector capability is unavailable at dequeue time, the
worker installs, as its only status operation, a fresh whole error record
carrying the availability message (the engine message, or the fallback when
it is absent or empty), and performs no store operation at all: the store is
returned unchanged, and the result does not depend on the jobs of the batch —
the check happens once, before any job runs. -/
theorem unavailable_engine_short_circuit (detect : Detect) (faults : WorkerFaults)
    (errMsg : Option String) (fresh : ℕ → G) (tIns tRec : ℝ)
    (jobs jobs2 : List PhotoJob) (st : Store G) (s0 : TaskStatus) :
    processJobs detect faults false errMsg fresh tIns tRec jobs st
      = (st, [StatusOp.replaceStatus (errorStatus (pyOr errMsg ("No face engine available")))])
    ∧ statusFrom s0 (processJobs detect faults false errMsg fresh tIns tRec jobs st).2
      = errorStatus (pyOr errMsg ("No face engine available"))
    ∧ processJobs detect faults false errMsg fresh tIns tRec jobs st
      = processJobs detect faults false errMsg fresh tIns tRec jobs2 st :=
  ⟨rfl, rfl, rfl⟩

/-- C10: whenever batch processing fails with any error — a failing job, a
store or clustering failure after all jobs succeeded (a raise in
_cluster_all, count_stats or faces_count), or the unavailable engine — the
status record is replaced by a fresh record in which only the error state and
the message are set, so total, processed, current-job name, faces found and
no-face count all hold their defaults 0, 0, "", 0, 0 and progress made before
the failure is no longer observable: whenever the final status state is
"error" the whole record is exactly that fresh record, and the
clustering-failure path after all jobs succeeded concretely yields it. -/
theorem error_status_resets_progress (detect : Detect) (faults : WorkerFaults)
    (avail : Bool) (errMsg : Option String) (fresh : ℕ → G) (tIns tRec : ℝ)
    (jobs : List PhotoJob) (st st1 stc : Store G) (ops : List StatusOp)
    (e : String) (s0 : TaskStatus) :
    ((statusFrom s0 (processJobs detect faults avail errMsg fresh tIns tRec jobs st).2).state
        = "error" →
      ∃ msg, statusFrom s0 (processJobs detect faults avail errMsg fresh tIns tRec jobs st).2
          = ⟨"error", 0, 0, "", 0, 0, some msg⟩)
    ∧ (processJobsAux detect faults jobs st = (st1, ops, none) →
        clusterAllF fresh tIns tRec faults.clusterErr st1 = (stc, some e) →
        statusFrom s0 (processJobs detect faults true errMsg fresh tIns tRec jobs st).2
          = ⟨"error", 0, 0, "", 0, 0, some e⟩) := by
  constructor
  · intro hstate
    cases avail with
    | false => exact ⟨pyOr errMsg ("No face engine available"), rfl⟩
    | true =>
      cases hq : (processJobsAux detect faults jobs st).2.2 with
      | some e2 =>
        have haux : processJobsAux detect faults jobs st
            = ((processJobsAux detect faults jobs st).1,
                (processJobsAux detect faults jobs st).2.1, some e2) := by
          rw [← hq]
        refine ⟨e2, ?_⟩
        rw [processJobs_err errMsg fresh tIns tRec haux]
        unfold statusFrom
        rw [List.foldl_cons, List.foldl_append]
        rfl
      | none =>
        have haux : processJobsAux detect faults jobs st
            = ((processJobsAux detect faults jobs st).1,
                (processJobsAux detect faults jobs st).2.1, none) := by
          rw [← hq]
        cases hc : (clusterAllF fresh tIns tRec faults.clusterErr
            (processJobsAux detect faults jobs st).1).2 with
        | some e2 =>
          have hcl : clusterAllF fresh tIns tRec faults.clusterErr
              (processJobsAux detect faults jobs st).1
              = ((clusterAllF fresh tIns tRec faults.clusterErr
                  (processJobsAux detect faults jobs st).1).1, some e2) := by
            rw [← hc]
          refine ⟨e2, ?_⟩
          rw [processJobs_cluster_err errMsg haux hcl]
          unfold statusFrom
          rw [List.foldl_cons, List.foldl_append]
          rfl
        | none =>
          have hcl : clusterAllF fresh tIns tRec faults.clusterErr
              (processJobsAux detect faults jobs st).1
              = ((clusterAllF fresh tIns tRec faults.clusterErr
                  (processJobsAux detect faults jobs st).1).1, none) := by
            rw [← hc]
          cases hcs : faults.countStatsErr with
          | some e2 =>
            refine ⟨e2, ?_⟩
            rw [processJobs_stats_err errMsg haux hcl hcs]
            unfold statusFrom
            rw [List.foldl_cons, List.foldl_append]
            rfl
          | none =>
            cases hfc : faults.facesCountErr with
            | some e2 =>
              refine ⟨e2, ?_⟩
              rw [processJobs_faces_err errMsg haux hcl hcs hfc]
              unfold statusFrom
              rw [List.foldl_cons, List.foldl_append]
              rfl
            | none =>
              have hdone : (statusFrom s0
                  (processJobs detect faults true errMsg fresh tIns tRec jobs st).2).state
                  = "done" := by
                rw [processJobs_ok errMsg haux hcl hcs hfc]
                unfold statusFrom
                rw [List.foldl_cons, List.foldl_append]
                rfl
              rw [hdone] at hstate
              exact absurd hstate (by decide)
  · intro h1 h2
    rw [processJobs_cluster_err errMsg h1 h2]
    unfold statusFrom
    rw [List.foldl_cons, List.foldl_append]
    rfl

/-- Witness for C10 at a clustering failure after the batch's only job
succeeded: the pass raises before clearing and the status becomes the fresh
error record. -/
theorem error_status_resets_progress_witness :
    processJobsAux detectW faultsC [job1] store0
      = (store1, [StatusOp.setCurrent ("a.jpg"), StatusOp.incrPhotosNoFace,
          StatusOp.incrProcessed], none)
    ∧ clusterAllF (fun n => n) ((6 : ℝ) / 10) ((6 : ℝ) / 10) faultsC.clusterErr store1
      = (store1, some ("db locked"))
    ∧ (statusFrom ⟨"idle", 0, 0, "", 0, 0, none⟩
        (processJobs detectW faultsC true none (fun n => n) ((6 : ℝ) / 10) ((6 : ℝ) / 10)
          [job1] store0).2).state = "error"
    ∧ statusFrom ⟨"idle", 0, 0, "", 0, 0, none⟩
        (processJobs detectW faultsC true none (fun n => n) ((6 : ℝ) / 10) ((6 : ℝ) / 10)
          [job1] store0).2
      = ⟨"error", 0, 0, "", 0, 0, some ("db locked")⟩ := by
  have h1 : processJobsAux detectW faultsC [job1] store0
      = (store1, [StatusOp.setCurrent ("a.jpg"), StatusOp.incrPhotosNoFace,
          StatusOp.incrProcessed], none) := rfl
  have h2 : clusterAllF (fun n => n) ((6 : ℝ) / 10) ((6 : ℝ) / 10) faultsC.clusterErr store1
      = (store1, some ("db locked")) := rfl
  have h := (error_status_resets_progress detectW faultsC true none (fun n => n)
    ((6 : ℝ) / 10) ((6 : ℝ) / 10) [job1] store0 store1 store1
    [StatusOp.setCurrent ("a.jpg"), StatusOp.incrPhotosNoFace, StatusOp.incrProcessed]
    ("db locked") ⟨"idle", 0, 0, "", 0, 0, none⟩).2 h1 h2
  exact ⟨h1, h2, by rw [h], h⟩

/-- C9 as stated — every status transition replaces the status record as a
whole, never mutating it field by field — is false on this code: the trace of
a concrete successful one-job run over the reliable store contains the field
mutation setting the current-job name (and further field mutations), not
only whole-record replacements. -/
theorem status_not_always_replaced_counterexample :
    ¬ (∀ op ∈ (processJobs detectW noFaults true none (fun n => n) ((6 : ℝ) / 10)
        ((6 : ℝ) / 10) [job1] store0).2, ∃ s, op = StatusOp.replaceStatus s) := by
  intro h
  have htr : (processJobs detectW noFaults true none (fun n => n) ((6 : ℝ) / 10)
      ((6 : ℝ) / 10) [job1] store0).2
      = [StatusOp.replaceStatus (runningStatus 1), StatusOp.setCurrent ("a.jpg"),
          StatusOp.incrPhotosNoFace, StatusOp.incrProcessed, StatusOp.setState ("done"),
          StatusOp.setPhotosNoFace 1, StatusOp.setFacesFound 0] := rfl
  have hmem : StatusOp.setCurrent ("a.jpg")
      ∈ (processJobs detectW noFaults true none (fun n => n) ((6 : ℝ) / 10)
          ((6 : ℝ) / 10) [job1] store0).2 := by
    rw [htr]
    simp
  obtain ⟨s, hs⟩ := h _ hmem
  cases hs

/-- C9 amended: the worker replaces the status record as a whole when it
enters the running state, when a batch fails, and on the unavailable-engine
short circuit; but per-job progress (the current-job name, the processed
count, the no-face count) and the done transition (state, then the two
counters) are field-by-field mutations of the shared record, exhibited by the
trace of a concrete successful run, so a concurrent reader may observe a
record mixing fields from two transitions. -/
theorem status_replaced_only_at_transitions (detect : Detect) (faults : WorkerFaults)
    (errMsg : Option String) (fresh : ℕ → G) (tIns tRec : ℝ) (jobs : List PhotoJob)
    (st st1 : Store G) (ops : List StatusOp) (e : String) :
    (∃ rest2, (processJobs detect faults true errMsg fresh tIns tRec jobs st).2
        = StatusOp.replaceStatus (runningStatus jobs.length) :: rest2)
    ∧ (processJobsAux detect faults jobs st = (st1, ops, some e) →
        ∃ l, (processJobs detect faults true errMsg fresh tIns tRec jobs st).2
          = l ++ [StatusOp.replaceStatus (errorStatus e)])
    ∧ (processJobs detect faults false errMsg fresh tIns tRec jobs st).2
        = [StatusOp.replaceStatus (errorStatus (pyOr errMsg ("No face engine available")))]
    ∧ StatusOp.setCurrent ("a.jpg")
        ∈ (processJobs detectW noFaults true none (fun n => n) ((6 : ℝ) / 10)
            ((6 : ℝ) / 10) [job1] store0).2
    ∧ StatusOp.setState ("done")
        ∈ (processJobs detectW noFaults true none (fun n => n) ((6 : ℝ) / 10)
            ((6 : ℝ) / 10) [job1] store0).2 := by
  refine ⟨?_, ?_, rfl, ?_, ?_⟩
  · cases hq : (processJobsAux detect faults jobs st).2.2 with
    | some e2 =>
      have haux : processJobsAux detect faults jobs st
          = ((processJobsAux detect faults jobs st).1,
              (processJobsAux detect faults jobs st).2.1, some e2) := by
        rw [← hq]
      rw [processJobs_err errMsg fresh tIns tRec haux]
      exact ⟨_, rfl⟩
    | none =>
      have haux : processJobsAux detect faults jobs st
          = ((processJobsAux detect faults jobs st).1,
              (processJobsAux detect faults jobs st).2.1, none) := by
        rw [← hq]
      cases hc : (clusterAllF fresh tIns tRec faults.clusterErr
          (processJobsAux detect faults jobs st).1).2 with
      | some e2 =>
        have hcl : clusterAllF fresh tIns tRec faults.clusterErr
            (processJobsAux detect faults jobs st).1
            = ((clusterAllF fresh tIns tRec faults.clusterErr
                (processJobsAux detect faults jobs st).1).1, some e2) := by
          rw [← hc]
        rw [processJobs_cluster_err errMsg haux hcl]
        exact ⟨_, rfl⟩
      | none =>
        have hcl : clusterAllF fresh tIns tRec faults.clusterErr
            (processJobsAux detect faults jobs st).1
            = ((clusterAllF fresh tIns tRec faults.clusterErr
                (processJobsAux detect faults jobs st).1).1, none) := by
          rw [← hc]
        cases hcs : faults.countStatsErr with
        | some e2 =>
          rw [processJobs_stats_err errMsg haux hcl hcs]
          exact ⟨_, rfl⟩
        | none =>
          cases hfc : faults.facesCountErr with
          | some e2 =>
            rw [processJobs_faces_err errMsg haux hcl hcs hfc]
            exact ⟨_, rfl⟩
          | none =>
            rw [processJobs_ok errMsg haux hcl hcs hfc]
            exact ⟨_, rfl⟩
  · intro h
    rw [processJobs_err errMsg fresh tIns tRec h]
    exact ⟨StatusOp.replaceStatus (runningStatus jobs.length) :: ops, by simp⟩
  · rw [show (processJobs detectW noFaults true none (fun n => n) ((6 : ℝ) / 10)
        ((6 : ℝ) / 10) [job1] store0).2
        = [StatusOp.replaceStatus (runningStatus 1), StatusOp.setCurrent ("a.jpg"),
            StatusOp.incrPhotosNoFace, StatusOp.incrProcessed, StatusOp.setState ("done"),
            StatusOp.setPhotosNoFace 1, StatusOp.setFacesFound 0] from rfl]
    simp
  · rw [show (processJobs detectW noFaults true none (fun n => n) ((6 : ℝ) / 10)
        ((6 : ℝ) / 10) [job1] store0).2
        = [StatusOp.replaceStatus (runningStatus 1), StatusOp.setCurrent ("a.jpg"),
            StatusOp.incrPhotosNoFace, StatusOp.incrProcessed, StatusOp.setState ("done"),
            StatusOp.setPhotosNoFace 1, StatusOp.setFacesFound 0] from rfl]
    simp

/-- Witness for the amended C9 at the concrete failing run. -/
theorem status_replaced_only_at_transitions_witness :
    ∃ l, (processJobs detectW noFaults true none (fun n => n) ((6 : ℝ) / 10)
        ((6 : ℝ) / 10) [jobBad] store0).2
      = l ++ [StatusOp.replaceStatus (errorStatus ("boom"))] :=
  (status_replaced_only_at_transitions detectW noFaults none (fun n => n)
    ((6 : ℝ) / 10) ((6 : ℝ) / 10) [jobBad] store0 store0
    [StatusOp.setCurrent ("b.jpg")] ("boom")).2.1 rfl

/-- Witness for C3: the single stored face of the sample store ends the
reclustering pass with a group label. -/
theorem recluster_labels_every_face_witness :
    (⟨1, "p1", e1, "[0,0,4,3]", "insightface", some 0⟩ : FaceRow ℕ)
      ∈ (clusterAll (fun n => n) ((6 : ℝ) / 10) ((6 : ℝ) / 10) store2).faces
    ∧ ∃ g, (⟨1, "p1", e1, "[0,0,4,3]", "insightface", some 0⟩ : FaceRow ℕ).group_id
        = some g := by
  have hmem : (⟨1, "p1", e1, "[0,0,4,3]", "insightface", some 0⟩ : FaceRow ℕ)
      ∈ (clusterAll (fun n => n) ((6 : ℝ) / 10) ((6 : ℝ) / 10) store2).faces := by
    rw [show (clusterAll (fun n => n) ((6 : ℝ) / 10) ((6 : ℝ) / 10) store2).faces
        = [⟨1, "p1", e1, "[0,0,4,3]", "insightface", some 0⟩] from rfl]
    exact List.mem_singleton.mpr rfl
  exact ⟨hmem,
    (recluster_labels_every_face (fun n => n) ((6 : ℝ) / 10) ((6 : ℝ) / 10) store2).1 _ hmem⟩

end FaceSearch

end
